import Mathlib

/-! Pipeline assembly and routing resolution.

A shallow embedding of `pipeline/config.go` (package `pipeline`):
`SetOutputIDs`, `Config.BuildOperators` and `Config.BuildPipeline`, followed by
the properties of the design document that are settled against it.

Go slices of operators are lists of operator values; a call of a method that
mutates an operator through its pointer becomes the replacement of that
operator in the list (the operators of a slice are distinct objects).  A Go
`error` result and a run-time panic (index out of range) are both made explicit
in the result type, and the calls made to the collaborators are recorded in a
trace.
-/

set_option autoImplicit false

/-- Go `error` values, identified with their message. -/
abbrev Error := String

/-- How a call can end without its normal result: by returning a non-nil
`error`, or by a run-time panic (an index out of range). -/
inductive Failure where
  | error (err : Error)
  | panic
  deriving DecidableEq, Repr

/-- Go `map[string]string`: `m k = some v` when `k` is a key with value `v`,
`m k = none` when `k` is not a key. -/
abbrev StringMap := String → Option String

namespace StringMap

/-- The result of `make(map[string]string)`: no keys. -/
def empty : StringMap := fun _ => none

/-- Assignment `m[k] = v`. -/
def insert (m : StringMap) (k v : String) : StringMap :=
  fun x => if x = k then some v else m x

end StringMap

/-! ## Package `operator`: the collaborators of the assembly -/

namespace operator

/-- Modelled from the spec: the interface `operator.Operator`, declared in package
`operator` (not part of the sources at hand), as far as `pipeline/config.go` uses it:
a runtime stage has an identifier and zero or more declared forwarding targets
(§3 RuntimeStage; §6 `identifier()`, `forwardingTargets()`,
`setForwardingTargets(..)`), and setting the targets stores them.  Test fixtures
(`testutil`), which the design leaves out of scope, are not stages in this sense. -/
structure Operator where
  /-- The identifier of the stage. -/
  id : String
  /-- The declared forwarding targets of the stage. -/
  outputIDs : List String
  deriving DecidableEq, Repr

namespace Operator

/-- Method `ID()`. -/
def ID (op : Operator) : String := op.id

/-- Method `GetOutputIDs()`. -/
def GetOutputIDs (op : Operator) : List String := op.outputIDs

/-- Method `SetOutputIDs([]string)`: the stage's forwarding targets become `ids`. -/
def SetOutputIDs (op : Operator) (ids : List String) : Operator :=
  { op with outputIDs := ids }

end Operator

/-- Modelled from the spec: the struct `operator.BuildContext` (package `operator`, not
part of the sources at hand), as far as `pipeline/config.go` uses it (§3
BuildContext): the namespace it carries, given by what the method
`PrependNamespace(id)` makes of an identifier, and the pipeline-level default
forwarding targets `DefaultOutputIDs`. -/
structure BuildContext where
  /-- Method `PrependNamespace(id)`: `id` qualified by the context's namespace. -/
  PrependNamespace : String → String
  /-- Field `DefaultOutputIDs`. -/
  DefaultOutputIDs : List String

/-- Modelled from the spec: the builder `operator.Config` (package `operator`, not part
of the sources at hand), as far as `pipeline/config.go` uses it (§3
StageSpecification, §6): its identifier `ID()`, the flag `BuildsMultipleOps()`
and the capability `Build(bc)`, which returns the built stages or an error. -/
structure Config where
  /-- Method `ID()`. -/
  ID : String
  /-- Method `BuildsMultipleOps()`. -/
  BuildsMultipleOps : Bool
  /-- Method `Build(bc)`. -/
  Build : BuildContext → Except Error (List Operator)

end operator

/-! ## Package `pipeline` -/

namespace pipeline

open operator

/-- The calls a run makes to its collaborators and to `SetOutputIDs`, with their
arguments, in the order in which they are made. -/
inductive Event where
  /-- The call `builder.Build(bc)`. -/
  | Build (builder : operator.Config) (bc : BuildContext)
  /-- The call `SetOutputIDs(operators, buildsMulti)`. -/
  | SetOutputIDs (operators : List Operator) (buildsMulti : StringMap)
  /-- The call `NewDirectedPipeline(operators)`. -/
  | NewDirectedPipeline (operators : List Operator)

/-- A run: the calls it made and how it ended. -/
structure Run (α : Type) where
  /-- The calls made, oldest first. -/
  trace : List Event
  /-- The values returned, or the failure. -/
  result : Except Failure α

/-- The run that first makes the call `ev` and then continues as `r`. -/
def Run.after {α : Type} (ev : Event) (r : Run α) : Run α :=
  { trace := ev :: r.trace, result := r.result }

/-! ### `SetOutputIDs` -/

/-- The inner loop of `SetOutputIDs` (lines 82-90): starting from
`allOutputs = []`, `pluginFound = false`, every declared target `id` that is a
key of `buildsMulti` is replaced by its value and sets `pluginFound`; the
(possibly replaced) `id` is appended to `allOutputs`.  The state is the pair
`(allOutputs, pluginFound)`. -/
def SetOutputIDs.scan (buildsMulti : StringMap) (ids : List String) : List String × Bool :=
  ids.foldl
    (fun (st : List String × Bool) (id : String) =>
      match buildsMulti id with
      | some pid => (st.1 ++ [pid], true)
      | none => (st.1 ++ [id], st.2))
    ([], false)

/-- The state of the outer loop of `SetOutputIDs`. -/
structure SetOutputIDs.State where
  /-- The current state of the slice's operators. -/
  operators : List Operator
  /-- The calls `operators[i].SetOutputIDs(ids)` made so far, oldest first, each as
  the pair `(i, ids)`. -/
  setterCalls : List (Nat × List String)

/-- The outer loop of `SetOutputIDs` (lines 69-95).  `remaining` counts the
iterations the `range` clause still has to make, `i` is the loop index and `st` the
current state; `op` is the operator at index `i` (the `range` clause yields only
indices below the length), and `operators[i+1]` panics when `i + 1` is out of range. -/
def SetOutputIDs.loop (buildsMulti : StringMap) :
    (remaining : Nat) → (i : Nat) → (st : SetOutputIDs.State) → Except Failure SetOutputIDs.State
  | 0, _, st => .ok st
  | remaining + 1, i, st =>
    match st.operators[i]? with
    | none => .error .panic
    | some op =>
      if i + 1 = st.operators.length then
        .ok st
      else if op.GetOutputIDs.length = 0 then
        match st.operators[i + 1]? with
        | none => .error .panic
        | some next =>
          SetOutputIDs.loop buildsMulti remaining (i + 1)
            { operators := st.operators.set i (op.SetOutputIDs [next.ID]),
              setterCalls := st.setterCalls ++ [(i, [next.ID])] }
      else
        match SetOutputIDs.scan buildsMulti op.GetOutputIDs with
        | (allOutputs, pluginFound) =>
          if pluginFound then
            SetOutputIDs.loop buildsMulti remaining (i + 1)
              { operators := st.operators.set i (op.SetOutputIDs allOutputs),
                setterCalls := st.setterCalls ++ [(i, allOutputs)] }
          else
            SetOutputIDs.loop buildsMulti remaining (i + 1) st

/-- The body of `SetOutputIDs(operators, buildsMulti)` run from the given operators,
no setter call made yet: the final state of the loop, or the failure. -/
def SetOutputIDs.run (operators : List Operator) (buildsMulti : StringMap) :
    Except Failure SetOutputIDs.State :=
  SetOutputIDs.loop buildsMulti operators.length 0 { operators := operators, setterCalls := [] }

/-- `SetOutputIDs(operators, buildsMulti)`: `.ok ops` is the state of the
operators after a call that returned the `nil` error. -/
def SetOutputIDs (operators : List Operator) (buildsMulti : StringMap) :
    Except Failure (List Operator) :=
  match SetOutputIDs.run operators buildsMulti with
  | .ok st => .ok st.operators
  | .error f => .error f

/-! ### `Config.BuildOperators` and `Config.BuildPipeline` -/

/-- Type `Config []operator.Config`: the configuration of a pipeline. -/
abbrev Config := List operator.Config

/-- The loop of `BuildOperators` (lines 30-40) over the builders still to be
visited, from the current `buildsMulti` and `operators`; its normal result is
the final `(operators, buildsMulti)`. -/
def Config.BuildOperators.loop (bc : BuildContext) :
    (builders : List operator.Config) → (buildsMulti : StringMap) →
    (operators : List Operator) → Run (List Operator × StringMap)
  | [], buildsMulti, operators => { trace := [], result := .ok (operators, buildsMulti) }
  | builder :: rest, buildsMulti, operators =>
    match builder.Build bc with
    | .error err => { trace := [.Build builder bc], result := .error (.error err) }
    | .ok op =>
      if builder.BuildsMultipleOps then
        match op[0]? with
        | none => { trace := [.Build builder bc], result := .error .panic }
        | some first =>
          Run.after (.Build builder bc)
            (Config.BuildOperators.loop bc rest
              (buildsMulti.insert (bc.PrependNamespace builder.ID) first.ID) (operators ++ op))
      else
        Run.after (.Build builder bc)
          (Config.BuildOperators.loop bc rest buildsMulti (operators ++ op))

/-- `c.BuildOperators(bc)`: builds the operators from the list of configs, then
calls `SetOutputIDs` on them; a failure of either is passed on, and no operators
are returned then. -/
def Config.BuildOperators (c : Config) (bc : BuildContext) : Run (List Operator) :=
  match Config.BuildOperators.loop bc c StringMap.empty [] with
  | { trace := tr, result := .error f } => { trace := tr, result := .error f }
  | { trace := tr, result := .ok (operators, buildsMulti) } =>
    { trace := tr ++ [.SetOutputIDs operators buildsMulti],
      result :=
        match SetOutputIDs operators buildsMulti with
        | .error f => .error f
        | .ok resolved => .ok resolved }

/-- `c.BuildPipeline(bc, defaultOperator)`; `none` is the `nil` default operator.
The constructor `NewDirectedPipeline` of the execution engine is not part of the
sources at hand and is a parameter, as is the type `P` of what it returns. -/
def Config.BuildPipeline {P : Type} (NewDirectedPipeline : List Operator → Except Failure P)
    (c : Config) (bc : BuildContext) (defaultOperator : Option Operator) : Run P :=
  let bc : BuildContext :=
    match defaultOperator with
    | some d => { bc with DefaultOutputIDs := [d.ID] }
    | none => bc
  match c.BuildOperators bc with
  | { trace := tr, result := .error f } => { trace := tr, result := .error f }
  | { trace := tr, result := .ok operators } =>
    let operators : List Operator :=
      match defaultOperator with
      | some d => operators ++ [d]
      | none => operators
    { trace := tr ++ [.NewDirectedPipeline operators], result := NewDirectedPipeline operators }

/-! ### The per-target variant of `SetOutputIDs`

The design notes (§9) describe a variant of routing resolution that rewrites per
target: it is `SetOutputIDs` without the `pluginFound` guard.  It is not part of
the program and serves only to be compared with `SetOutputIDs`. -/

/-- The outer loop of the per-target variant: as `SetOutputIDs.loop`, except that
a stage that is not the last one and has declared targets always gets its target
list back with each target that is a key of `buildsMulti` replaced by its value and
every other target left in place. -/
def SetOutputIDsPerTarget.loop (buildsMulti : StringMap) :
    (remaining : Nat) → (i : Nat) → (operators : List Operator) →
    Except Failure (List Operator)
  | 0, _, operators => .ok operators
  | remaining + 1, i, operators =>
    match operators[i]? with
    | none => .error .panic
    | some op =>
      if i + 1 = operators.length then
        .ok operators
      else if op.GetOutputIDs.length = 0 then
        match operators[i + 1]? with
        | none => .error .panic
        | some next =>
          SetOutputIDsPerTarget.loop buildsMulti remaining (i + 1)
            (operators.set i (op.SetOutputIDs [next.ID]))
      else
        SetOutputIDsPerTarget.loop buildsMulti remaining (i + 1)
          (operators.set i
            (op.SetOutputIDs
              (op.GetOutputIDs.map fun id =>
                match buildsMulti id with
                | some pid => pid
                | none => id)))

/-- The per-target variant of `SetOutputIDs(operators, buildsMulti)`. -/
def SetOutputIDsPerTarget (operators : List Operator) (buildsMulti : StringMap) :
    Except Failure (List Operator) :=
  SetOutputIDsPerTarget.loop buildsMulti operators.length 0 operators

/-! ### Closed forms

The functions below are not part of the program: they describe, without a loop,
what the loops above compute, and are proved equal to them further down. -/

/-- Closed form of one iteration of `SetOutputIDs` on a stage `op` that is not the
last one and is followed by a stage with identifier `nextID`. -/
def resolveStage (buildsMulti : StringMap) (op : Operator) (nextID : String) : Operator :=
  if op.GetOutputIDs.length = 0 then
    op.SetOutputIDs [nextID]
  else
    op.SetOutputIDs (op.GetOutputIDs.map fun t => (buildsMulti t).getD t)

/-- Closed form of `SetOutputIDs`: every stage but the last is resolved against
its successor, the last one is kept. -/
def resolveAll (buildsMulti : StringMap) : List Operator → List Operator
  | [] => []
  | [op] => [op]
  | op :: next :: rest =>
    resolveStage buildsMulti op next.ID :: resolveAll buildsMulti (next :: rest)

/-- Closed form of the setter calls of one iteration of `SetOutputIDs` at index `i`, on
a stage `op` that is not the last one and is followed by a stage with identifier
`nextID`. -/
def stageCalls (buildsMulti : StringMap) (i : Nat) (op : Operator) (nextID : String) :
    List (Nat × List String) :=
  if op.GetOutputIDs.length = 0 then
    [(i, [nextID])]
  else if op.GetOutputIDs.any (fun t => (buildsMulti t).isSome) then
    [(i, op.GetOutputIDs.map fun t => (buildsMulti t).getD t)]
  else
    []

/-- Closed form of the setter calls of `SetOutputIDs` on a list whose first stage is at
index `i`. -/
def callsFrom (buildsMulti : StringMap) : Nat → List Operator → List (Nat × List String)
  | _, [] => []
  | _, [_] => []
  | i, op :: next :: rest =>
    stageCalls buildsMulti i op next.ID ++ callsFrom buildsMulti (i + 1) (next :: rest)

/-- The stages a builder contributes to the flattened sequence: what `Build(bc)`
returns, nothing when it fails. -/
def builtBy (bc : BuildContext) (builder : operator.Config) : List Operator :=
  match builder.Build bc with
  | .ok op => op
  | .error _ => []

/-- The flattened build order: the concatenation, in specification order, of the
stages returned by each builder. -/
def flattened (bc : BuildContext) (c : Config) : List Operator :=
  (c.map (builtBy bc)).flatten

/-- Closed form of the multi-instance index after the builders of `c` have been
visited in order, starting from `buildsMulti`. -/
def indexFrom (bc : BuildContext) : List operator.Config → StringMap → StringMap
  | [], buildsMulti => buildsMulti
  | builder :: rest, buildsMulti =>
    match builder.BuildsMultipleOps, (builtBy bc builder)[0]? with
    | true, some first =>
      indexFrom bc rest (buildsMulti.insert (bc.PrependNamespace builder.ID) first.ID)
    | _, _ => indexFrom bc rest buildsMulti

/-- Every builder of `c` succeeds, that is, returns no error. -/
def AllBuild (bc : BuildContext) (c : Config) : Prop :=
  ∀ builder ∈ c, ∃ op, builder.Build bc = .ok op

/-- The builder precondition of §4.1 the code relies on: a multi-stage
specification whose builder succeeds returns at least one stage. -/
def MultiNonEmpty (bc : BuildContext) (c : Config) : Prop :=
  ∀ builder ∈ c, builder.BuildsMultipleOps = true →
    ∀ op, builder.Build bc = .ok op → op ≠ []

/-! ### Concrete inputs

Small specifications and a build context on which the properties below are
evaluated. -/

namespace Example

/-- A build context with namespace `$` and no default forwarding targets. -/
def bc : BuildContext :=
  { PrependNamespace := fun id => "$." ++ id, DefaultOutputIDs := [] }

/-- A single-stage specification: its builder returns one stage, with the given
identifier and declared forwarding targets. -/
def single (id : String) (outputs : List String) : operator.Config :=
  { ID := id, BuildsMultipleOps := false, Build := fun _ => .ok [⟨id, outputs⟩] }

/-- A multi-stage specification (a plugin): its builder returns the given stages. -/
def multi (id : String) (stages : List Operator) : operator.Config :=
  { ID := id, BuildsMultipleOps := true, Build := fun _ => .ok stages }

/-- A specification whose builder fails with the given error. -/
def failing (id : String) (err : Error) : operator.Config :=
  { ID := id, BuildsMultipleOps := false, Build := fun _ => .error err }

end Example

end pipeline

/-! ## Properties -/

namespace pipeline

open operator

/-! ### The loops and their closed forms -/

theorem scan_foldl (m : StringMap) (ids acc : List String) (b : Bool) :
    ids.foldl
      (fun (st : List String × Bool) (id : String) =>
        match m id with
        | some pid => (st.1 ++ [pid], true)
        | none => (st.1 ++ [id], st.2))
      (acc, b)
    = (acc ++ ids.map (fun t => (m t).getD t), b || ids.any (fun t => (m t).isSome)) := by
  induction ids generalizing acc b with
  | nil => simp
  | cons t ts ih =>
    simp only [List.foldl_cons, List.map_cons, List.any_cons]
    cases h : m t with
    | none => simp [ih]
    | some p => simp [ih]

theorem scan_eq (m : StringMap) (ids : List String) :
    SetOutputIDs.scan m ids
      = (ids.map (fun t => (m t).getD t), ids.any (fun t => (m t).isSome)) := by
  unfold SetOutputIDs.scan
  rw [scan_foldl]
  simp

theorem map_getD_of_any_false (m : StringMap) (ids : List String)
    (h : ids.any (fun t => (m t).isSome) = false) :
    ids.map (fun t => (m t).getD t) = ids := by
  induction ids with
  | nil => rfl
  | cons t ts ih =>
    simp only [List.any_cons, Bool.or_eq_false_iff] at h
    have ht : m t = none := by
      cases hm : m t with
      | none => rfl
      | some p => simp [hm] at h
    simp [ht, ih h.2]

theorem set_self_of_getElem? (ops : List Operator) (i : Nat) (op : Operator)
    (h : ops[i]? = some op) : ops.set i op = ops := by
  induction ops generalizing i with
  | nil => rfl
  | cons x xs ih =>
    cases i with
    | zero => simp at h; simp [h]
    | succ j => simp at h; simp [ih j h]

theorem loop_step (m : StringMap) (n i : Nat) (st : SetOutputIDs.State) (op next : Operator)
    (hi : st.operators[i]? = some op) (hn : st.operators[i + 1]? = some next) :
    SetOutputIDs.loop m (n + 1) i st
      = SetOutputIDs.loop m n (i + 1)
          { operators := st.operators.set i (resolveStage m op next.ID),
            setterCalls := st.setterCalls ++ stageCalls m i op next.ID } := by
  have hlt : i + 1 < st.operators.length := by
    rcases List.getElem?_eq_some.1 hn with ⟨h, _⟩
    exact h
  have hne : ¬ (i + 1 = st.operators.length) := by omega
  rw [SetOutputIDs.loop]
  simp only [hi, hn, hne, if_false, scan_eq]
  unfold resolveStage stageCalls
  by_cases h0 : op.GetOutputIDs.length = 0
  · simp only [h0, if_true]
  · simp only [h0, if_false]
    cases hany : op.GetOutputIDs.any (fun t => (m t).isSome) with
    | true => simp only [if_true]
    | false =>
      have hop : op.SetOutputIDs (op.GetOutputIDs.map fun t => (m t).getD t) = op := by
        rw [map_getD_of_any_false m _ hany]; rfl
      simp only [Bool.false_eq_true, if_false, hop, set_self_of_getElem? st.operators i op hi,
        List.append_nil]

theorem loop_append (m : StringMap) (rest pre : List Operator)
    (calls : List (Nat × List String)) :
    SetOutputIDs.loop m rest.length pre.length { operators := pre ++ rest, setterCalls := calls }
      = .ok { operators := pre ++ resolveAll m rest,
              setterCalls := calls ++ callsFrom m pre.length rest } := by
  induction rest generalizing pre calls with
  | nil => simp [SetOutputIDs.loop, resolveAll, callsFrom]
  | cons op rest ih =>
    cases rest with
    | nil => simp [SetOutputIDs.loop, resolveAll, callsFrom]
    | cons next tl =>
      have hget : (pre ++ op :: next :: tl)[pre.length]? = some op := by
        rw [List.getElem?_append_right (by omega)]; simp
      have hget1 : (pre ++ op :: next :: tl)[pre.length + 1]? = some next := by
        rw [List.getElem?_append_right (by omega)]; simp
      have hset : ∀ x : Operator,
          (pre ++ op :: next :: tl).set pre.length x = (pre ++ [x]) ++ next :: tl := by
        intro x; simp [List.set_append]
      have hih := ih (pre ++ [resolveStage m op next.ID])
        (calls ++ stageCalls m pre.length op next.ID)
      rw [List.length_append, List.length_singleton] at hih
      rw [List.length_cons, loop_step m _ _ _ op next hget hget1]
      simp only [hset]
      rw [hih]
      simp [resolveAll, callsFrom]

/-- The loop of `SetOutputIDs` ends normally, in the state given by the closed forms. -/
theorem SetOutputIDs_run_eq (operators : List Operator) (buildsMulti : StringMap) :
    SetOutputIDs.run operators buildsMulti
      = .ok { operators := resolveAll buildsMulti operators,
              setterCalls := callsFrom buildsMulti 0 operators } := by
  have := loop_append buildsMulti operators [] []
  simpa [SetOutputIDs.run] using this

/-- `SetOutputIDs` returns normally, with the closed form as the final state. -/
theorem SetOutputIDs_eq (operators : List Operator) (buildsMulti : StringMap) :
    SetOutputIDs operators buildsMulti = .ok (resolveAll buildsMulti operators) := by
  unfold SetOutputIDs
  rw [SetOutputIDs_run_eq]

theorem resolveAll_length (m : StringMap) (ops : List Operator) :
    (resolveAll m ops).length = ops.length := by
  induction ops with
  | nil => rfl
  | cons op rest ih =>
    cases rest with
    | nil => rfl
    | cons next tl => simp only [resolveAll, List.length_cons] at ih ⊢; omega

theorem resolveAll_getElem? (m : StringMap) (ops : List Operator) (i : Nat)
    (op next : Operator) (hop : ops[i]? = some op) (hnext : ops[i + 1]? = some next) :
    (resolveAll m ops)[i]? = some (resolveStage m op next.ID) := by
  induction ops generalizing i with
  | nil => simp at hop
  | cons x rest ih =>
    cases rest with
    | nil => simp at hnext
    | cons y tl =>
      cases i with
      | zero =>
        simp at hop hnext
        simp [resolveAll, hop, hnext]
      | succ j =>
        rw [List.getElem?_cons_succ] at hop hnext
        simp only [resolveAll, List.getElem?_cons_succ]
        exact ih j hop hnext

theorem resolveAll_getLast? (m : StringMap) (ops : List Operator) :
    (resolveAll m ops).getLast? = ops.getLast? := by
  induction ops with
  | nil => rfl
  | cons op rest ih =>
    cases rest with
    | nil => rfl
    | cons next tl =>
      obtain ⟨a, l, hal⟩ : ∃ a l, resolveAll m (next :: tl) = a :: l := by
        cases tl <;> simp [resolveAll]
      simp only [resolveAll]
      rw [hal, List.getLast?_cons_cons, List.getLast?_cons_cons, ← hal, ih]

theorem resolveStage_ID (m : StringMap) (op : Operator) (nextID : String) :
    (resolveStage m op nextID).ID = op.ID := by
  unfold resolveStage; split <;> rfl

theorem resolveStage_outputs_of_none (m : StringMap) (op : Operator) (nextID : String)
    (h : op.GetOutputIDs.length = 0) :
    (resolveStage m op nextID).GetOutputIDs = [nextID] := by
  unfold resolveStage; rw [if_pos h]; rfl

theorem resolveStage_outputs_of_some (m : StringMap) (op : Operator) (nextID : String)
    (h : op.GetOutputIDs.length ≠ 0) :
    (resolveStage m op nextID).GetOutputIDs = op.GetOutputIDs.map fun t => (m t).getD t := by
  unfold resolveStage; rw [if_neg h]; rfl

theorem resolveAll_map_ID (m : StringMap) (ops : List Operator) :
    (resolveAll m ops).map Operator.ID = ops.map Operator.ID := by
  induction ops with
  | nil => rfl
  | cons op rest ih =>
    cases rest with
    | nil => rfl
    | cons next tl =>
      simp only [resolveAll, List.map_cons] at ih ⊢
      rw [ih, resolveStage_ID]

theorem AllBuild_cons {bc : BuildContext} {b : operator.Config} {c : Config} :
    AllBuild bc (b :: c) ↔ (∃ op, b.Build bc = .ok op) ∧ AllBuild bc c := by
  simp [AllBuild]

theorem MultiNonEmpty_cons {bc : BuildContext} {b : operator.Config} {c : Config} :
    MultiNonEmpty bc (b :: c) ↔
      (b.BuildsMultipleOps = true → ∀ op, b.Build bc = .ok op → op ≠ []) ∧
        MultiNonEmpty bc c := by
  simp [MultiNonEmpty]

theorem flattened_cons (bc : BuildContext) (b : operator.Config) (c : Config) :
    flattened bc (b :: c) = builtBy bc b ++ flattened bc c := by
  simp [flattened]

theorem flattened_append (bc : BuildContext) (c d : Config) :
    flattened bc (c ++ d) = flattened bc c ++ flattened bc d := by
  simp [flattened]

theorem builtBy_of_ok {bc : BuildContext} {b : operator.Config} {op : List Operator}
    (h : b.Build bc = .ok op) : builtBy bc b = op := by
  simp [builtBy, h]

/-- The build loop over `pre ++ rest`, when every builder of `pre` succeeds and
meets the builder precondition: the builders of `pre` are called in order, and the loop
goes on over `rest` from the closed-form index and the flattened stages of `pre`. -/
theorem buildLoop_append (bc : BuildContext) (pre rest : List operator.Config)
    (buildsMulti : StringMap) (operators : List Operator)
    (hall : AllBuild bc pre) (hmulti : MultiNonEmpty bc pre) :
    Config.BuildOperators.loop bc (pre ++ rest) buildsMulti operators =
      { trace := pre.map (fun b => Event.Build b bc) ++
          (Config.BuildOperators.loop bc rest (indexFrom bc pre buildsMulti)
            (operators ++ flattened bc pre)).trace,
        result :=
          (Config.BuildOperators.loop bc rest (indexFrom bc pre buildsMulti)
            (operators ++ flattened bc pre)).result } := by
  induction pre generalizing buildsMulti operators with
  | nil => simp [flattened, indexFrom]
  | cons b pre ih =>
    obtain ⟨⟨op, hop⟩, hall'⟩ := AllBuild_cons.1 hall
    obtain ⟨hb, hmulti'⟩ := MultiNonEmpty_cons.1 hmulti
    rw [List.cons_append, Config.BuildOperators.loop]
    simp only [hop]
    cases hm : b.BuildsMultipleOps with
    | false =>
      simp only [Bool.false_eq_true, if_false, Run.after]
      rw [ih _ _ hall' hmulti']
      simp [indexFrom, hm, flattened_cons, builtBy_of_ok hop]
    | true =>
      cases op with
      | nil => exact absurd rfl (hb hm [] hop)
      | cons first more =>
        simp only [if_true, Run.after, List.getElem?_cons_zero]
        rw [ih _ _ hall' hmulti']
        simp [indexFrom, hm, flattened_cons, builtBy_of_ok hop]

/-- `BuildOperators` when every builder succeeds and meets the builder precondition:
every builder is called once, in order, then `SetOutputIDs` is called on the flattened
stages with the closed-form index, and its final state is returned. -/
theorem BuildOperators_eq (c : Config) (bc : BuildContext)
    (hall : AllBuild bc c) (hmulti : MultiNonEmpty bc c) :
    c.BuildOperators bc =
      { trace := c.map (fun b => Event.Build b bc) ++
          [Event.SetOutputIDs (flattened bc c) (indexFrom bc c StringMap.empty)],
        result := .ok (resolveAll (indexFrom bc c StringMap.empty) (flattened bc c)) } := by
  have h := buildLoop_append bc c [] StringMap.empty [] hall hmulti
  rw [List.append_nil] at h
  unfold Config.BuildOperators
  rw [h]
  simp [Config.BuildOperators.loop, SetOutputIDs_eq]

/-! ### Routing resolution: the three rules -/

/-- C1 (default-target rule): a stage at a position `i` that is not the last one
(there is a stage `next` at `i + 1`) and has zero declared forwarding targets before
the call has, after `SetOutputIDs`, exactly the one-element target list `[next.ID]`. -/
theorem SetOutputIDs_default_target (operators : List Operator) (buildsMulti : StringMap)
    (i : Nat) (op next : Operator)
    (hop : operators[i]? = some op) (hnext : operators[i + 1]? = some next)
    (hnone : op.GetOutputIDs.length = 0) :
    ∃ out, SetOutputIDs operators buildsMulti = .ok out ∧
      (out[i]?).map Operator.GetOutputIDs = some [next.ID] := by
  refine ⟨_, SetOutputIDs_eq operators buildsMulti, ?_⟩
  rw [resolveAll_getElem? buildsMulti operators i op next hop hnext, Option.map_some',
    resolveStage_outputs_of_none buildsMulti op next.ID hnone]

theorem SetOutputIDs_default_target_witness :
    ∃ out, SetOutputIDs [⟨"A", []⟩, ⟨"B", ["C"]⟩, ⟨"C", []⟩] (StringMap.empty.insert "P" "P1")
        = .ok out ∧
      (out[0]?).map Operator.GetOutputIDs = some [Operator.ID ⟨"B", ["C"]⟩] :=
  SetOutputIDs_default_target [⟨"A", []⟩, ⟨"B", ["C"]⟩, ⟨"C", []⟩]
    (StringMap.empty.insert "P" "P1") 0 ⟨"A", []⟩ ⟨"B", ["C"]⟩ rfl rfl rfl

/-- C2 (plugin-substitution rule): a stage at a position `i` that is not the last one
and has one or more declared forwarding targets has, after `SetOutputIDs`, the declared
list mapped pointwise by `t ↦ buildsMulti[t]` if `t` is a key of the index, else `t`;
the order and the length are those of the declared list. -/
theorem SetOutputIDs_plugin_substitution (operators : List Operator) (buildsMulti : StringMap)
    (i : Nat) (op next : Operator)
    (hop : operators[i]? = some op) (hnext : operators[i + 1]? = some next)
    (hsome : op.GetOutputIDs.length ≠ 0) :
    ∃ out, SetOutputIDs operators buildsMulti = .ok out ∧
      ∃ op', out[i]? = some op' ∧
        op'.GetOutputIDs =
          op.GetOutputIDs.map
            (fun t => match buildsMulti t with
              | some pid => pid
              | none => t) ∧
        op'.GetOutputIDs.length = op.GetOutputIDs.length := by
  refine ⟨_, SetOutputIDs_eq operators buildsMulti, resolveStage buildsMulti op next.ID,
    resolveAll_getElem? buildsMulti operators i op next hop hnext, ?_, ?_⟩
  · rw [resolveStage_outputs_of_some buildsMulti op next.ID hsome]
    apply List.map_congr_left
    intro t _
    cases buildsMulti t <;> rfl
  · rw [resolveStage_outputs_of_some buildsMulti op next.ID hsome, List.length_map]

theorem SetOutputIDs_plugin_substitution_witness :
    ∃ out, SetOutputIDs [⟨"A", ["x", "P", "y"]⟩, ⟨"B", []⟩] (StringMap.empty.insert "P" "P1")
        = .ok out ∧
      ∃ op', out[0]? = some op' ∧
        op'.GetOutputIDs =
          (Operator.GetOutputIDs ⟨"A", ["x", "P", "y"]⟩).map
            (fun t => match (StringMap.empty.insert "P" "P1") t with
              | some pid => pid
              | none => t) ∧
        op'.GetOutputIDs.length = (Operator.GetOutputIDs ⟨"A", ["x", "P", "y"]⟩).length :=
  SetOutputIDs_plugin_substitution [⟨"A", ["x", "P", "y"]⟩, ⟨"B", []⟩]
    (StringMap.empty.insert "P" "P1") 0 ⟨"A", ["x", "P", "y"]⟩ ⟨"B", []⟩ rfl rfl (by decide)

/-- C3 (terminal rule): for a non-empty stage list, `SetOutputIDs` leaves the last
stage as it was, so its forwarding targets after the call are its targets before the
call: no default target is added and no substitution is applied to it.  In particular
a one-element list is returned unchanged. -/
theorem SetOutputIDs_terminal (operators : List Operator) (buildsMulti : StringMap)
    (hne : operators ≠ []) :
    (∃ out last, SetOutputIDs operators buildsMulti = .ok out ∧
      operators.getLast? = some last ∧ out.getLast? = some last ∧
      (out.getLast?).map Operator.GetOutputIDs = some last.GetOutputIDs) ∧
    (∀ op, operators = [op] → SetOutputIDs operators buildsMulti = .ok [op]) := by
  constructor
  · obtain ⟨last, hlast⟩ : ∃ last, operators.getLast? = some last := by
      cases h : operators.getLast? with
      | none => exact absurd (List.getLast?_eq_none_iff.1 h) hne
      | some last => exact ⟨last, rfl⟩
    refine ⟨_, last, SetOutputIDs_eq operators buildsMulti, hlast, ?_, ?_⟩
    · rw [resolveAll_getLast?, hlast]
    · rw [resolveAll_getLast?, hlast]; rfl
  · intro op h
    subst h
    exact SetOutputIDs_eq [op] buildsMulti

theorem SetOutputIDs_terminal_witness :
    (∃ out last, SetOutputIDs [⟨"A", []⟩, ⟨"Z", ["P"]⟩] (StringMap.empty.insert "P" "P1")
        = .ok out ∧
      [(⟨"A", []⟩ : Operator), ⟨"Z", ["P"]⟩].getLast? = some last ∧ out.getLast? = some last ∧
      (out.getLast?).map Operator.GetOutputIDs = some last.GetOutputIDs) ∧
    (∀ op, [(⟨"A", []⟩ : Operator), ⟨"Z", ["P"]⟩] = [op] →
      SetOutputIDs [⟨"A", []⟩, ⟨"Z", ["P"]⟩] (StringMap.empty.insert "P" "P1") = .ok [op]) :=
  SetOutputIDs_terminal [⟨"A", []⟩, ⟨"Z", ["P"]⟩] (StringMap.empty.insert "P" "P1") (by simp)

/-! ### Routing resolution: keys of the index after resolution, and a second run -/

theorem getD_not_key (m : StringMap) (hvals : ∀ k v, m k = some v → m v = none) (t : String) :
    m ((m t).getD t) = none := by
  cases h : m t with
  | none => simpa using h
  | some v => simpa using hvals t v h

theorem resolveStage_no_key (m : StringMap) (hvals : ∀ k v, m k = some v → m v = none)
    (op : Operator) (nextID : String) (hnext : m nextID = none) :
    ∀ t ∈ (resolveStage m op nextID).GetOutputIDs, m t = none := by
  intro t ht
  by_cases h0 : op.GetOutputIDs.length = 0
  · rw [resolveStage_outputs_of_none m op nextID h0] at ht
    rw [List.mem_singleton.1 ht]; exact hnext
  · rw [resolveStage_outputs_of_some m op nextID h0] at ht
    obtain ⟨t0, _, rfl⟩ := List.mem_map.1 ht
    exact getD_not_key m hvals t0

theorem resolveStage_of_no_key (m : StringMap) (op : Operator) (nextID : String)
    (hne : op.GetOutputIDs.length ≠ 0) (hkeys : ∀ t ∈ op.GetOutputIDs, m t = none) :
    resolveStage m op nextID = op := by
  unfold resolveStage
  rw [if_neg hne]
  have : op.GetOutputIDs.map (fun t => (m t).getD t) = op.GetOutputIDs := by
    conv_rhs => rw [← List.map_id op.GetOutputIDs]
    apply List.map_congr_left
    intro t ht
    simp [hkeys t ht]
  rw [this]; rfl

theorem resolveStage_outputs_ne_nil (m : StringMap) (op : Operator) (nextID : String) :
    (resolveStage m op nextID).GetOutputIDs.length ≠ 0 := by
  by_cases h0 : op.GetOutputIDs.length = 0
  · rw [resolveStage_outputs_of_none m op nextID h0]; simp
  · rw [resolveStage_outputs_of_some m op nextID h0, List.length_map]; exact h0

theorem resolveAll_cons_head (m : StringMap) (x : Operator) (xs : List Operator) :
    ∃ a l, resolveAll m (x :: xs) = a :: l ∧ a.ID = x.ID := by
  cases xs with
  | nil => exact ⟨x, [], rfl, rfl⟩
  | cons y ys => exact ⟨_, _, rfl, resolveStage_ID m x y.ID⟩

/-- With an index none of whose values is a key, and no stage identifier a key, no
target of a stage other than the last is a key once the list is resolved. -/
theorem resolveAll_no_key (m : StringMap) (ops : List Operator)
    (hvals : ∀ k v, m k = some v → m v = none) (hids : ∀ op ∈ ops, m op.ID = none)
    (i : Nat) (op' : Operator) (hi : (resolveAll m ops)[i]? = some op')
    (hlast : i + 1 < ops.length) : ∀ t ∈ op'.GetOutputIDs, m t = none := by
  obtain ⟨op, hop⟩ : ∃ op, ops[i]? = some op := ⟨_, List.getElem?_eq_getElem (by omega)⟩
  obtain ⟨next, hnext⟩ : ∃ next, ops[i + 1]? = some next := ⟨_, List.getElem?_eq_getElem hlast⟩
  rw [resolveAll_getElem? m ops i op next hop hnext] at hi
  rw [← Option.some.inj hi]
  exact resolveStage_no_key m hvals op next.ID (hids next (List.getElem?_mem hnext))

/-- With an index none of whose values is a key, and no stage identifier a key,
resolving a resolved list changes nothing. -/
theorem resolveAll_idem (m : StringMap) (ops : List Operator)
    (hvals : ∀ k v, m k = some v → m v = none) (hids : ∀ op ∈ ops, m op.ID = none) :
    resolveAll m (resolveAll m ops) = resolveAll m ops := by
  induction ops with
  | nil => rfl
  | cons op rest ih =>
    cases rest with
    | nil => rfl
    | cons next tl =>
      have hids' : ∀ o ∈ next :: tl, m o.ID = none :=
        fun o ho => hids o (List.mem_cons_of_mem _ ho)
      have hnext : m next.ID = none := hids next (by simp)
      obtain ⟨a, l, hal, haid⟩ := resolveAll_cons_head m next tl
      have ih' := ih hids'
      simp only [resolveAll]
      rw [hal] at ih' ⊢
      simp only [resolveAll]
      rw [ih', haid,
        resolveStage_of_no_key m _ next.ID (resolveStage_outputs_ne_nil m op next.ID)
          (resolveStage_no_key m hvals op next.ID hnext)]

/-- C6 counterexample, three inputs on which a forwarding target is still a key of the
index after `SetOutputIDs`: (1) the last stage keeps its declared target `P`; (2) the
default target given to `A` is the identifier `P` of its successor, a key; (3) the target
`P` of `A` is rewritten to `Q`, the value of `P`, which is itself a key. -/
theorem SetOutputIDs_no_key_target_counterexample :
    (SetOutputIDs [⟨"A", ["Z"]⟩, ⟨"Z", ["P"]⟩] (StringMap.empty.insert "P" "P1")
        = .ok [⟨"A", ["Z"]⟩, ⟨"Z", ["P"]⟩] ∧
      (StringMap.empty.insert "P" "P1") "P" = some "P1") ∧
    (SetOutputIDs [⟨"A", []⟩, ⟨"P", []⟩] (StringMap.empty.insert "P" "P1")
        = .ok [⟨"A", ["P"]⟩, ⟨"P", []⟩] ∧
      (StringMap.empty.insert "P" "P1") "P" = some "P1") ∧
    (SetOutputIDs [⟨"A", ["P"]⟩, ⟨"Z", []⟩] ((StringMap.empty.insert "P" "Q").insert "Q" "Q1")
        = .ok [⟨"A", ["Q"]⟩, ⟨"Z", []⟩] ∧
      ((StringMap.empty.insert "P" "Q").insert "Q" "Q1") "Q" = some "Q1") :=
  ⟨⟨rfl, rfl⟩, ⟨rfl, rfl⟩, ⟨rfl, rfl⟩⟩

/-- C6, amended (post-resolution invariant): for an index none of whose values is itself
a key and a stage list none of whose identifiers is a key, after `SetOutputIDs` no
forwarding target of any stage other than the last is a key of the index. -/
theorem SetOutputIDs_no_key_target (operators : List Operator) (buildsMulti : StringMap)
    (hvals : ∀ k v, buildsMulti k = some v → buildsMulti v = none)
    (hids : ∀ op ∈ operators, buildsMulti op.ID = none) :
    ∃ out, SetOutputIDs operators buildsMulti = .ok out ∧
      ∀ i op', out[i]? = some op' → i + 1 < out.length →
        ∀ t ∈ op'.GetOutputIDs, buildsMulti t = none := by
  refine ⟨_, SetOutputIDs_eq operators buildsMulti, ?_⟩
  intro i op' hi hlast
  rw [resolveAll_length] at hlast
  exact resolveAll_no_key buildsMulti operators hvals hids i op' hi hlast

theorem SetOutputIDs_no_key_target_witness :
    ∃ out, SetOutputIDs [⟨"A", ["P", "x"]⟩, ⟨"B", []⟩, ⟨"C", ["P"]⟩]
        (StringMap.empty.insert "P" "P1") = .ok out ∧
      ∀ i op', out[i]? = some op' → i + 1 < out.length →
        ∀ t ∈ op'.GetOutputIDs, (StringMap.empty.insert "P" "P1") t = none :=
  SetOutputIDs_no_key_target [⟨"A", ["P", "x"]⟩, ⟨"B", []⟩, ⟨"C", ["P"]⟩]
    (StringMap.empty.insert "P" "P1")
    (by
      intro k v h
      unfold StringMap.insert StringMap.empty at h ⊢
      split at h
      · cases h; decide
      · cases h)
    (by
      intro op hop
      simp only [List.mem_cons, List.mem_singleton, List.not_mem_nil, or_false] at hop
      rcases hop with rfl | rfl | rfl <;> decide)

/-- C7 counterexample, two inputs on which a second run of `SetOutputIDs` changes the
result of the first: (1) `P` is rewritten to its value `Q`, itself a key, and the
second run rewrites `Q` to `Q1`; (2) `A` is given the default target `P`, the
identifier of its successor and a key, and the second run rewrites it to `P1`. -/
theorem SetOutputIDs_idempotent_counterexample :
    (SetOutputIDs [⟨"A", ["P"]⟩, ⟨"Z", []⟩] ((StringMap.empty.insert "P" "Q").insert "Q" "Q1")
        = .ok [⟨"A", ["Q"]⟩, ⟨"Z", []⟩] ∧
      SetOutputIDs [⟨"A", ["Q"]⟩, ⟨"Z", []⟩] ((StringMap.empty.insert "P" "Q").insert "Q" "Q1")
        = .ok [⟨"A", ["Q1"]⟩, ⟨"Z", []⟩] ∧
      ([⟨"A", ["Q1"]⟩, ⟨"Z", []⟩] : List Operator) ≠ [⟨"A", ["Q"]⟩, ⟨"Z", []⟩]) ∧
    (SetOutputIDs [⟨"A", []⟩, ⟨"P", []⟩] (StringMap.empty.insert "P" "P1")
        = .ok [⟨"A", ["P"]⟩, ⟨"P", []⟩] ∧
      SetOutputIDs [⟨"A", ["P"]⟩, ⟨"P", []⟩] (StringMap.empty.insert "P" "P1")
        = .ok [⟨"A", ["P1"]⟩, ⟨"P", []⟩] ∧
      ([⟨"A", ["P1"]⟩, ⟨"P", []⟩] : List Operator) ≠ [⟨"A", ["P"]⟩, ⟨"P", []⟩]) :=
  ⟨⟨rfl, rfl, by decide⟩, ⟨rfl, rfl, by decide⟩⟩

/-- C7, amended (idempotence): for an index none of whose values is itself a key and a
stage list none of whose identifiers is a key, applying `SetOutputIDs` a second time,
with the same index, to the result of a first application yields a stage list
identical to the result of the first application. -/
theorem SetOutputIDs_idempotent (operators : List Operator) (buildsMulti : StringMap)
    (hvals : ∀ k v, buildsMulti k = some v → buildsMulti v = none)
    (hids : ∀ op ∈ operators, buildsMulti op.ID = none) :
    ∃ out, SetOutputIDs operators buildsMulti = .ok out ∧
      SetOutputIDs out buildsMulti = .ok out := by
  refine ⟨_, SetOutputIDs_eq operators buildsMulti, ?_⟩
  rw [SetOutputIDs_eq, resolveAll_idem buildsMulti operators hvals hids]

theorem SetOutputIDs_idempotent_witness :
    ∃ out, SetOutputIDs [⟨"A", ["P", "x"]⟩, ⟨"B", []⟩, ⟨"C", ["P"]⟩]
        (StringMap.empty.insert "P" "P1") = .ok out ∧
      SetOutputIDs out (StringMap.empty.insert "P" "P1") = .ok out :=
  SetOutputIDs_idempotent [⟨"A", ["P", "x"]⟩, ⟨"B", []⟩, ⟨"C", ["P"]⟩]
    (StringMap.empty.insert "P" "P1")
    (by
      intro k v h
      unfold StringMap.insert StringMap.empty at h ⊢
      split at h
      · cases h; decide
      · cases h)
    (by
      intro op hop
      simp only [List.mem_cons, List.mem_singleton, List.not_mem_nil, or_false] at hop
      rcases hop with rfl | rfl | rfl <;> decide)

/-! ### Assembly: `BuildOperators` -/

theorem resolveAll_getElem?_ID (m : StringMap) (ops : List Operator) (i : Nat) :
    ((resolveAll m ops)[i]?).map Operator.ID = (ops[i]?).map Operator.ID := by
  rw [← List.getElem?_map, ← List.getElem?_map, resolveAll_map_ID]

theorem getElem?_of_resolveAll (m : StringMap) (ops : List Operator) (i : Nat) (op' : Operator)
    (h : (resolveAll m ops)[i]? = some op') : ∃ op, ops[i]? = some op ∧ op.ID = op'.ID := by
  have hid := resolveAll_getElem?_ID m ops i
  rw [h] at hid
  cases hop : ops[i]? with
  | none => rw [hop] at hid; simp at hid
  | some op =>
    rw [hop] at hid
    simp only [Option.map_some', Option.some.injEq] at hid
    exact ⟨op, rfl, hid.symm⟩

/-- C4 counterexample: `A`, a plugin `B` whose builder succeeds with zero stages, `C`;
every builder succeeds and no produced stage declares a target, yet `BuildOperators`
returns no stage list: evaluating `op[0]` for `B` panics. -/
theorem BuildOperators_linear_chain_counterexample :
    [Example.single "A" [], Example.multi "B" [], Example.single "C" []] ≠ [] ∧
    AllBuild Example.bc [Example.single "A" [], Example.multi "B" [], Example.single "C" []] ∧
    (∀ op ∈ flattened Example.bc
        [Example.single "A" [], Example.multi "B" [], Example.single "C" []],
      op.GetOutputIDs.length = 0) ∧
    (Config.BuildOperators
        [Example.single "A" [], Example.multi "B" [], Example.single "C" []] Example.bc).result
      = .error .panic := by
  refine ⟨by simp, ?_, ?_, rfl⟩
  · simp [AllBuild, Example.single, Example.multi]
  · simp [flattened, builtBy, Example.single, Example.multi, Operator.GetOutputIDs]

/-- C4, amended (implicit linear chain): when every builder succeeds, every multi-stage
specification returns at least one stage, and no produced stage declares a forwarding
target, `BuildOperators` returns a stage list with the identifiers of the flattened
build order in which every stage but the last has exactly one forwarding target, the
identifier of its immediate successor, and the last stage has none. -/
theorem BuildOperators_linear_chain (c : Config) (bc : BuildContext)
    (hall : AllBuild bc c) (hmulti : MultiNonEmpty bc c)
    (hnone : ∀ op ∈ flattened bc c, op.GetOutputIDs.length = 0) :
    ∃ out, (c.BuildOperators bc).result = .ok out ∧
      out.map Operator.ID = (flattened bc c).map Operator.ID ∧
      (∀ i op next, out[i]? = some op → out[i + 1]? = some next →
        op.GetOutputIDs = [next.ID]) ∧
      (∀ last, out.getLast? = some last → last.GetOutputIDs = []) := by
  rw [BuildOperators_eq c bc hall hmulti]
  refine ⟨_, rfl, resolveAll_map_ID _ _, ?_, ?_⟩
  · intro i op next hi hn
    obtain ⟨op0, hop0, _⟩ := getElem?_of_resolveAll _ _ _ _ hi
    obtain ⟨next0, hnext0, hid⟩ := getElem?_of_resolveAll _ _ _ _ hn
    rw [resolveAll_getElem? _ _ i op0 next0 hop0 hnext0] at hi
    have hmem : op0 ∈ flattened bc c := List.getElem?_mem hop0
    rw [← hid, ← Option.some.inj hi]
    exact resolveStage_outputs_of_none _ _ _ (hnone op0 hmem)
  · intro last hlast
    rw [resolveAll_getLast?] at hlast
    have hmem : last ∈ flattened bc c := List.mem_of_getLast?_eq_some hlast
    exact List.length_eq_zero.1 (hnone last hmem)

theorem BuildOperators_linear_chain_witness :
    ∃ out,
      (Config.BuildOperators
        [Example.single "A" [], Example.multi "B" [⟨"B1", []⟩, ⟨"B2", []⟩],
          Example.single "C" []] Example.bc).result = .ok out ∧
      out.map Operator.ID =
        (flattened Example.bc
          [Example.single "A" [], Example.multi "B" [⟨"B1", []⟩, ⟨"B2", []⟩],
            Example.single "C" []]).map Operator.ID ∧
      (∀ i op next, out[i]? = some op → out[i + 1]? = some next →
        op.GetOutputIDs = [next.ID]) ∧
      (∀ last, out.getLast? = some last → last.GetOutputIDs = []) :=
  BuildOperators_linear_chain
    [Example.single "A" [], Example.multi "B" [⟨"B1", []⟩, ⟨"B2", []⟩], Example.single "C" []]
    Example.bc
    (by simp [AllBuild, Example.single, Example.multi])
    (by simp [MultiNonEmpty, Example.single, Example.multi])
    (by simp [flattened, builtBy, Example.single, Example.multi, Operator.GetOutputIDs])

theorem indexFrom_append (bc : BuildContext) (pre post : List operator.Config)
    (m : StringMap) : indexFrom bc (pre ++ post) m = indexFrom bc post (indexFrom bc pre m) := by
  induction pre generalizing m with
  | nil => rfl
  | cons b pre ih =>
    simp only [List.cons_append, indexFrom]
    split <;> exact ih _

theorem indexFrom_of_not_key (bc : BuildContext) (post : List operator.Config)
    (m : StringMap) (k : String)
    (h : ∀ Q ∈ post, Q.BuildsMultipleOps = true → bc.PrependNamespace Q.ID ≠ k) :
    indexFrom bc post m k = m k := by
  induction post generalizing m with
  | nil => rfl
  | cons b post ih =>
    have hpost : ∀ Q ∈ post, Q.BuildsMultipleOps = true → bc.PrependNamespace Q.ID ≠ k :=
      fun Q hQ => h Q (List.mem_cons_of_mem _ hQ)
    cases hb : b.BuildsMultipleOps with
    | false => simp only [indexFrom, hb]; exact ih _ hpost
    | true =>
      cases hf : (builtBy bc b)[0]? with
      | none => simp only [indexFrom, hb, hf]; exact ih _ hpost
      | some first =>
        simp only [indexFrom, hb, hf]
        rw [ih _ hpost]
        have hne : k ≠ bc.PrependNamespace b.ID :=
          fun e => h b (List.mem_cons_self _ _) hb e.symm
        simp [StringMap.insert, hne]

/-- C5 counterexample, three inputs on which every builder succeeds and stage `A`, built
by an earlier specification, declares the namespaced identifier `$.B` of the plugin `B`
(stages `B1`, `B2`) as its target: (1) a later plugin with the same identifier takes
over the index entry, and `A` is routed to `X1`, not `B1`; (2) the first stage of `B`
carries the identifier `$.B` itself, and the resolved target is the composite
identifier; (3) a later plugin returns zero stages, and no list is returned. -/
theorem BuildOperators_plugin_entry_counterexample :
    (Config.BuildOperators
        [Example.single "A" ["$.B"], Example.multi "B" [⟨"B1", []⟩, ⟨"B2", []⟩],
          Example.multi "B" [⟨"X1", []⟩]] Example.bc).result
      = .ok [⟨"A", ["X1"]⟩, ⟨"B1", ["B2"]⟩, ⟨"B2", ["X1"]⟩, ⟨"X1", []⟩] ∧
    (Config.BuildOperators
        [Example.single "A" ["$.B"], Example.multi "B" [⟨"$.B", []⟩, ⟨"B2", []⟩]]
        Example.bc).result
      = .ok [⟨"A", [Example.bc.PrependNamespace "B"]⟩, ⟨"$.B", ["B2"]⟩, ⟨"B2", []⟩] ∧
    (Config.BuildOperators
        [Example.single "A" ["$.B"], Example.multi "B" [⟨"B1", []⟩, ⟨"B2", []⟩],
          Example.multi "Q" []] Example.bc).result
      = .error .panic :=
  ⟨rfl, rfl, rfl⟩

/-- C5, amended (plugin entry-point resolution): when every builder succeeds and every
multi-stage specification returns at least one stage, a multi-stage specification `P`
returns the stages `first :: more`, no later multi-stage specification has the
namespaced identifier of `P`, and a stage `s` produced by an earlier specification
declares the namespaced identifier of `P` as its `j`-th target, then in the list
returned by `BuildOperators` the `j`-th target of that stage is the identifier of
`first`; it differs from the composite identifier of `P` whenever the identifier of
`first` does. -/
theorem BuildOperators_plugin_entry (pre post : List operator.Config) (P : operator.Config)
    (bc : BuildContext) (first : Operator) (more : List Operator) (i j : Nat) (s : Operator)
    (hall : AllBuild bc (pre ++ P :: post)) (hmulti : MultiNonEmpty bc (pre ++ P :: post))
    (hP : P.BuildsMultipleOps = true) (hbuild : P.Build bc = .ok (first :: more))
    (hlater : ∀ Q ∈ post, Q.BuildsMultipleOps = true →
      bc.PrependNamespace Q.ID ≠ bc.PrependNamespace P.ID)
    (hs : (flattened bc pre)[i]? = some s)
    (ht : s.GetOutputIDs[j]? = some (bc.PrependNamespace P.ID)) :
    ∃ out s', (Config.BuildOperators (pre ++ P :: post) bc).result = .ok out ∧
      out[i]? = some s' ∧ s'.ID = s.ID ∧
      s'.GetOutputIDs[j]? = some first.ID ∧
      (first.ID ≠ bc.PrependNamespace P.ID →
        s'.GetOutputIDs[j]? ≠ some (bc.PrependNamespace P.ID)) := by
  rw [BuildOperators_eq _ bc hall hmulti]
  have hi : i < (flattened bc pre).length := (List.getElem?_eq_some.1 hs).1
  have hflat : flattened bc (pre ++ P :: post)
      = flattened bc pre ++ (first :: more ++ flattened bc post) := by
    rw [flattened_append, flattened_cons, builtBy_of_ok hbuild]
  have hs' : (flattened bc (pre ++ P :: post))[i]? = some s := by
    rw [hflat, List.getElem?_append_left hi]; exact hs
  have hlen : i + 1 < (flattened bc (pre ++ P :: post)).length := by
    rw [hflat]; simp; omega
  obtain ⟨next, hnext⟩ : ∃ next, (flattened bc (pre ++ P :: post))[i + 1]? = some next :=
    ⟨_, List.getElem?_eq_getElem hlen⟩
  have hkey : indexFrom bc (pre ++ P :: post) StringMap.empty (bc.PrependNamespace P.ID)
      = some first.ID := by
    rw [indexFrom_append]
    simp only [indexFrom, hP, builtBy_of_ok hbuild, List.getElem?_cons_zero]
    rw [indexFrom_of_not_key bc post _ _ hlater]
    simp [StringMap.insert]
  have hsome : s.GetOutputIDs.length ≠ 0 := by
    have := (List.getElem?_eq_some.1 ht).1
    omega
  have htarget : (resolveStage (indexFrom bc (pre ++ P :: post) StringMap.empty) s
      next.ID).GetOutputIDs[j]? = some first.ID := by
    rw [resolveStage_outputs_of_some _ _ _ hsome, List.getElem?_map, ht]
    simp [hkey]
  refine ⟨_, _, rfl, resolveAll_getElem? _ _ i s next hs' hnext, resolveStage_ID _ _ _,
    htarget, ?_⟩
  intro hne
  rw [htarget]
  simpa using hne

theorem BuildOperators_plugin_entry_witness :
    ∃ out s',
      (Config.BuildOperators
        ([Example.single "A" ["x", "$.B"]] ++
          Example.multi "B" [⟨"B1", []⟩, ⟨"B2", []⟩] :: [Example.single "C" []])
        Example.bc).result = .ok out ∧
      out[0]? = some s' ∧ s'.ID = Operator.ID ⟨"A", ["x", "$.B"]⟩ ∧
      s'.GetOutputIDs[1]? = some (Operator.ID ⟨"B1", []⟩) ∧
      (Operator.ID ⟨"B1", []⟩ ≠ Example.bc.PrependNamespace (Example.multi "B"
          [⟨"B1", []⟩, ⟨"B2", []⟩]).ID →
        s'.GetOutputIDs[1]? ≠ some (Example.bc.PrependNamespace (Example.multi "B"
          [⟨"B1", []⟩, ⟨"B2", []⟩]).ID)) :=
  BuildOperators_plugin_entry [Example.single "A" ["x", "$.B"]] [Example.single "C" []]
    (Example.multi "B" [⟨"B1", []⟩, ⟨"B2", []⟩]) Example.bc ⟨"B1", []⟩ [⟨"B2", []⟩] 0 1
    ⟨"A", ["x", "$.B"]⟩
    (by simp [AllBuild, Example.single, Example.multi])
    (by simp [MultiNonEmpty, Example.single, Example.multi])
    rfl rfl
    (by simp [Example.single])
    rfl rfl

/-- C8 counterexample: the builder of the only specification, a plugin, succeeds with
zero stages; `BuildOperators` returns no sequence at all, evaluating `op[0]` panics. -/
theorem BuildOperators_order_counterexample :
    AllBuild Example.bc [Example.multi "P" []] ∧
    (Config.BuildOperators [Example.multi "P" []] Example.bc).result = .error .panic ∧
    ¬ ∃ out, (Config.BuildOperators [Example.multi "P" []] Example.bc).result = .ok out := by
  refine ⟨by simp [AllBuild, Example.multi], rfl, ?_⟩
  rintro ⟨out, h⟩
  have hp : (Config.BuildOperators [Example.multi "P" []] Example.bc).result = .error .panic :=
    rfl
  rw [hp] at h
  cases h

/-- C8, amended (order preservation): when every builder succeeds and every multi-stage
specification returns at least one stage, the sequence of stage identifiers returned by
`BuildOperators` is the concatenation, in specification order, of the identifier
sequences returned by the builders; its length is the sum of the lengths of the
builders' outputs. -/
theorem BuildOperators_order (c : Config) (bc : BuildContext)
    (hall : AllBuild bc c) (hmulti : MultiNonEmpty bc c) :
    ∃ out, (c.BuildOperators bc).result = .ok out ∧
      out.map Operator.ID = (c.map fun b => (builtBy bc b).map Operator.ID).flatten ∧
      out.length = (c.map fun b => (builtBy bc b).length).sum := by
  rw [BuildOperators_eq c bc hall hmulti]
  refine ⟨_, rfl, ?_, ?_⟩
  · rw [resolveAll_map_ID, flattened, List.map_flatten, List.map_map]; rfl
  · rw [resolveAll_length, flattened, List.length_flatten, List.map_map]; rfl

theorem BuildOperators_order_witness :
    ∃ out,
      (Config.BuildOperators
        [Example.single "A" ["C"], Example.multi "B" [⟨"B1", []⟩, ⟨"B2", ["A"]⟩],
          Example.single "C" []] Example.bc).result = .ok out ∧
      out.map Operator.ID =
        (List.map (fun b => (builtBy Example.bc b).map Operator.ID)
          [Example.single "A" ["C"], Example.multi "B" [⟨"B1", []⟩, ⟨"B2", ["A"]⟩],
            Example.single "C" []]).flatten ∧
      out.length =
        (List.map (fun b => (builtBy Example.bc b).length)
          [Example.single "A" ["C"], Example.multi "B" [⟨"B1", []⟩, ⟨"B2", ["A"]⟩],
            Example.single "C" []]).sum :=
  BuildOperators_order
    [Example.single "A" ["C"], Example.multi "B" [⟨"B1", []⟩, ⟨"B2", ["A"]⟩],
      Example.single "C" []]
    Example.bc
    (by simp [AllBuild, Example.single, Example.multi])
    (by simp [MultiNonEmpty, Example.single, Example.multi])

/-- C9 counterexample: the plugin `P` succeeds with zero stages and the next builder,
`F`, is the first to fail, with error `boom`; `BuildOperators` does not return `boom`:
evaluating `op[0]` for `P` panics before `F` is called. -/
theorem BuildOperators_fail_fast_counterexample :
    (Example.multi "P" []).Build Example.bc = .ok [] ∧
    (Example.failing "F" "boom").Build Example.bc = .error "boom" ∧
    (Config.BuildOperators [Example.multi "P" [], Example.failing "F" "boom"]
        Example.bc).result = .error .panic ∧
    (Config.BuildOperators [Example.multi "P" [], Example.failing "F" "boom"]
        Example.bc).result ≠ .error (.error "boom") := by
  refine ⟨rfl, rfl, rfl, ?_⟩
  intro h
  have hp : (Config.BuildOperators [Example.multi "P" [], Example.failing "F" "boom"]
      Example.bc).result = .error .panic := rfl
  rw [hp] at h
  cases h

/-- C9, amended (fail-fast): when the builder `failing` is the first to fail, with error
`err`, and every multi-stage specification before it returns at least one stage,
`BuildOperators` returns no stage list but exactly the error `err`; the calls made are
the builds of the specifications up to and including `failing`, in order: no builder of
a later specification is called and `SetOutputIDs` is not called. -/
theorem BuildOperators_fail_fast (pre post : List operator.Config) (failing : operator.Config)
    (bc : BuildContext) (err : Error)
    (hall : AllBuild bc pre) (hmulti : MultiNonEmpty bc pre)
    (hfail : failing.Build bc = .error err) :
    (Config.BuildOperators (pre ++ failing :: post) bc).result = .error (.error err) ∧
    (Config.BuildOperators (pre ++ failing :: post) bc).trace
      = (pre ++ [failing]).map (fun b => Event.Build b bc) ∧
    (∀ operators buildsMulti,
      Event.SetOutputIDs operators buildsMulti ∉
        (Config.BuildOperators (pre ++ failing :: post) bc).trace) := by
  have h := buildLoop_append bc pre (failing :: post) StringMap.empty [] hall hmulti
  have hrun : Config.BuildOperators (pre ++ failing :: post) bc
      = { trace := (pre ++ [failing]).map (fun b => Event.Build b bc),
          result := .error (.error err) } := by
    unfold Config.BuildOperators
    rw [h]
    simp [Config.BuildOperators.loop, hfail]
  rw [hrun]
  refine ⟨rfl, rfl, ?_⟩
  intro operators buildsMulti hmem
  obtain ⟨b, _, hb⟩ := List.mem_map.1 hmem
  cases hb

theorem BuildOperators_fail_fast_witness :
    (Config.BuildOperators
        ([Example.single "A" []] ++ Example.failing "F" "boom" :: [Example.single "C" []])
        Example.bc).result = .error (.error "boom") ∧
    (Config.BuildOperators
        ([Example.single "A" []] ++ Example.failing "F" "boom" :: [Example.single "C" []])
        Example.bc).trace
      = ([Example.single "A" []] ++ [Example.failing "F" "boom"]).map
          (fun b => Event.Build b Example.bc) ∧
    (∀ operators buildsMulti,
      Event.SetOutputIDs operators buildsMulti ∉
        (Config.BuildOperators
          ([Example.single "A" []] ++ Example.failing "F" "boom" :: [Example.single "C" []])
          Example.bc).trace) :=
  BuildOperators_fail_fast [Example.single "A" []] [Example.single "C" []]
    (Example.failing "F" "boom") Example.bc "boom"
    (by simp [AllBuild, Example.single])
    (by simp [MultiNonEmpty, Example.single])
    rfl

/-! ### Assembly entry point: `BuildPipeline` -/

/-- `BuildPipeline` with a default operator `d`, when every builder succeeds under the
context carrying `[d.ID]` and meets the builder precondition. -/
theorem BuildPipeline_some_eq {P : Type} (NewDirectedPipeline : List Operator → Except Failure P)
    (c : Config) (bc : BuildContext) (d : Operator)
    (hall : AllBuild { bc with DefaultOutputIDs := [d.ID] } c)
    (hmulti : MultiNonEmpty { bc with DefaultOutputIDs := [d.ID] } c) :
    Config.BuildPipeline NewDirectedPipeline c bc (some d) =
      { trace :=
          (c.map (fun b => Event.Build b { bc with DefaultOutputIDs := [d.ID] }) ++
            [Event.SetOutputIDs (flattened { bc with DefaultOutputIDs := [d.ID] } c)
              (indexFrom { bc with DefaultOutputIDs := [d.ID] } c StringMap.empty)]) ++
          [Event.NewDirectedPipeline
            (resolveAll (indexFrom { bc with DefaultOutputIDs := [d.ID] } c StringMap.empty)
              (flattened { bc with DefaultOutputIDs := [d.ID] } c) ++ [d])],
        result :=
          NewDirectedPipeline
            (resolveAll (indexFrom { bc with DefaultOutputIDs := [d.ID] } c StringMap.empty)
              (flattened { bc with DefaultOutputIDs := [d.ID] } c) ++ [d]) } := by
  unfold Config.BuildPipeline
  simp only [BuildOperators_eq c _ hall hmulti]

/-- C10 counterexample: one specification building the stage `A` with no declared
target, and the terminal stage `T`.  The sequence handed to `NewDirectedPipeline` is
`A` without any target followed by `T`, whereas routing resolution applied to the
built stages followed by `T` gives `A` the target `T`. -/
theorem BuildPipeline_resolution_counterexample :
    (Config.BuildPipeline Except.ok [Example.single "A" []] Example.bc
        (some ⟨"T", []⟩)).trace.getLast?
      = some (Event.NewDirectedPipeline [⟨"A", []⟩, ⟨"T", []⟩]) ∧
    (Config.BuildPipeline Except.ok [Example.single "A" []] Example.bc
        (some ⟨"T", []⟩)).result
      = .ok [⟨"A", []⟩, ⟨"T", []⟩] ∧
    SetOutputIDs
        (flattened { Example.bc with DefaultOutputIDs := [Operator.ID ⟨"T", []⟩] }
          [Example.single "A" []] ++ [⟨"T", []⟩])
        (indexFrom { Example.bc with DefaultOutputIDs := [Operator.ID ⟨"T", []⟩] }
          [Example.single "A" []] StringMap.empty)
      = .ok [⟨"A", ["T"]⟩, ⟨"T", []⟩] ∧
    ([⟨"A", []⟩, ⟨"T", []⟩] : List Operator) ≠ [⟨"A", ["T"]⟩, ⟨"T", []⟩] :=
  ⟨rfl, rfl, rfl, by decide⟩

/-- C10, amended: `BuildPipeline` resolves routing over the built stages only and appends
the terminal stage afterwards.  When every builder succeeds (under the context that
carries the terminal's identifier as default target) and every multi-stage specification
returns at least one stage, the sequence handed to `NewDirectedPipeline` is the result of
`SetOutputIDs` on the built stages, followed by the terminal stage as supplied; the last
built stage is handed over as its builder returned it, so with no forwarding target when
it declared none. -/
theorem BuildPipeline_resolution {P : Type}
    (NewDirectedPipeline : List Operator → Except Failure P)
    (c : Config) (bc : BuildContext) (d : Operator)
    (hall : AllBuild { bc with DefaultOutputIDs := [d.ID] } c)
    (hmulti : MultiNonEmpty { bc with DefaultOutputIDs := [d.ID] } c) :
    ∃ resolved,
      SetOutputIDs (flattened { bc with DefaultOutputIDs := [d.ID] } c)
          (indexFrom { bc with DefaultOutputIDs := [d.ID] } c StringMap.empty)
        = .ok resolved ∧
      (Config.BuildPipeline NewDirectedPipeline c bc (some d)).trace.getLast?
        = some (Event.NewDirectedPipeline (resolved ++ [d])) ∧
      (Config.BuildPipeline NewDirectedPipeline c bc (some d)).result
        = NewDirectedPipeline (resolved ++ [d]) ∧
      resolved.getLast? = (flattened { bc with DefaultOutputIDs := [d.ID] } c).getLast? ∧
      (resolved ++ [d]).getLast? = some d := by
  refine ⟨_, SetOutputIDs_eq _ _, ?_, ?_, resolveAll_getLast? _ _, ?_⟩
  · rw [BuildPipeline_some_eq NewDirectedPipeline c bc d hall hmulti]
    simp
  · rw [BuildPipeline_some_eq NewDirectedPipeline c bc d hall hmulti]
  · simp

theorem BuildPipeline_resolution_witness :
    ∃ resolved,
      SetOutputIDs
          (flattened { Example.bc with DefaultOutputIDs := [Operator.ID ⟨"T", []⟩] }
            [Example.single "A" [], Example.single "B" []])
          (indexFrom { Example.bc with DefaultOutputIDs := [Operator.ID ⟨"T", []⟩] }
            [Example.single "A" [], Example.single "B" []] StringMap.empty)
        = .ok resolved ∧
      (Config.BuildPipeline Except.ok [Example.single "A" [], Example.single "B" []]
          Example.bc (some ⟨"T", []⟩)).trace.getLast?
        = some (Event.NewDirectedPipeline (resolved ++ [⟨"T", []⟩])) ∧
      (Config.BuildPipeline Except.ok [Example.single "A" [], Example.single "B" []]
          Example.bc (some ⟨"T", []⟩)).result
        = Except.ok (resolved ++ [⟨"T", []⟩]) ∧
      resolved.getLast? =
        (flattened { Example.bc with DefaultOutputIDs := [Operator.ID ⟨"T", []⟩] }
          [Example.single "A" [], Example.single "B" []]).getLast? ∧
      (resolved ++ [(⟨"T", []⟩ : Operator)]).getLast? = some ⟨"T", []⟩ :=
  BuildPipeline_resolution Except.ok [Example.single "A" [], Example.single "B" []]
    Example.bc ⟨"T", []⟩
    (by simp [AllBuild, Example.single])
    (by simp [MultiNonEmpty, Example.single])

/-! ### Routing resolution: frame, locality and the per-target variant -/

theorem stageCalls_mem (m : StringMap) (j : Nat) (op : Operator) (nextID : String)
    (k : Nat) (ids : List String) (h : (k, ids) ∈ stageCalls m j op nextID) : k = j := by
  unfold stageCalls at h
  split at h
  · simp at h; exact h.1
  · split at h
    · simp at h; exact h.1
    · simp at h

theorem callsFrom_mem (m : StringMap) (ops : List Operator) (j k : Nat) (ids : List String)
    (h : (k, ids) ∈ callsFrom m j ops) :
    j ≤ k ∧ ∃ op next, ops[k - j]? = some op ∧ ops[k - j + 1]? = some next ∧
      (k, ids) ∈ stageCalls m k op next.ID := by
  induction ops generalizing j with
  | nil => simp [callsFrom] at h
  | cons op rest ih =>
    cases rest with
    | nil => simp [callsFrom] at h
    | cons next tl =>
      simp only [callsFrom, List.mem_append] at h
      rcases h with h | h
      · have hk := stageCalls_mem m j op next.ID k ids h
        subst hk
        exact ⟨Nat.le_refl _, op, next, by simp, by simp, h⟩
      · obtain ⟨hle, op', next', h1, h2, h3⟩ := ih (j + 1) h
        have hkj : k - j = (k - (j + 1)) + 1 := by omega
        refine ⟨by omega, op', next', ?_, ?_, h3⟩
        · rw [hkj, List.getElem?_cons_succ]; exact h1
        · rw [hkj, List.getElem?_cons_succ]; exact h2

theorem resolveAll_getElem?_last (m : StringMap) (ops : List Operator) (i : Nat)
    (hnext : ops[i + 1]? = none) : (resolveAll m ops)[i]? = ops[i]? := by
  induction ops generalizing i with
  | nil => rfl
  | cons x rest ih =>
    cases rest with
    | nil => rfl
    | cons y tl =>
      cases i with
      | zero => simp at hnext
      | succ j =>
        rw [List.getElem?_cons_succ] at hnext
        simp only [resolveAll, List.getElem?_cons_succ]
        exact ih j hnext

/-- C14 (no mutation without a match): for a stage `op` at a position `i` that is not
the last one, with one or more declared forwarding targets none of which is a key of
the index, the run of `SetOutputIDs` makes no call of the target setter on the stage
at `i`, and the stage, hence its target list, is after the call what it was before. -/
theorem SetOutputIDs_no_setter_call (operators : List Operator) (buildsMulti : StringMap)
    (i : Nat) (op next : Operator)
    (hop : operators[i]? = some op) (hnext : operators[i + 1]? = some next)
    (hsome : op.GetOutputIDs.length ≠ 0)
    (hnokey : ∀ t ∈ op.GetOutputIDs, buildsMulti t = none) :
    ∃ st, SetOutputIDs.run operators buildsMulti = .ok st ∧
      SetOutputIDs operators buildsMulti = .ok st.operators ∧
      (∀ ids, (i, ids) ∉ st.setterCalls) ∧
      st.operators[i]? = some op ∧
      (st.operators[i]?).map Operator.GetOutputIDs = some op.GetOutputIDs := by
  have hst : (resolveAll buildsMulti operators)[i]? = some op := by
    rw [resolveAll_getElem? buildsMulti operators i op next hop hnext,
      resolveStage_of_no_key buildsMulti op next.ID hsome hnokey]
  refine ⟨_, SetOutputIDs_run_eq operators buildsMulti, SetOutputIDs_eq operators buildsMulti,
    ?_, hst, ?_⟩
  · intro ids hmem
    obtain ⟨_, op', next', h1, h2, h3⟩ := callsFrom_mem buildsMulti operators 0 i ids hmem
    rw [Nat.sub_zero, hop] at h1
    cases h1
    have hany : op.GetOutputIDs.any (fun t => (buildsMulti t).isSome) = false := by
      rw [List.any_eq_false]
      intro t ht
      simp [hnokey t ht]
    simp [stageCalls, hsome, hany] at h3
  · simp only [hst, Option.map_some']

theorem SetOutputIDs_no_setter_call_witness :
    ∃ st, SetOutputIDs.run [⟨"A", ["x", "y"]⟩, ⟨"B", ["P"]⟩, ⟨"C", []⟩]
        (StringMap.empty.insert "P" "P1") = .ok st ∧
      SetOutputIDs [⟨"A", ["x", "y"]⟩, ⟨"B", ["P"]⟩, ⟨"C", []⟩]
        (StringMap.empty.insert "P" "P1") = .ok st.operators ∧
      (∀ ids, (0, ids) ∉ st.setterCalls) ∧
      st.operators[0]? = some ⟨"A", ["x", "y"]⟩ ∧
      (st.operators[0]?).map Operator.GetOutputIDs
        = some (Operator.GetOutputIDs ⟨"A", ["x", "y"]⟩) :=
  SetOutputIDs_no_setter_call [⟨"A", ["x", "y"]⟩, ⟨"B", ["P"]⟩, ⟨"C", []⟩]
    (StringMap.empty.insert "P" "P1") 0 ⟨"A", ["x", "y"]⟩ ⟨"B", ["P"]⟩ rfl rfl (by decide)
    (by
      intro t ht
      simp only [Operator.GetOutputIDs, List.mem_cons, List.mem_singleton,
        List.not_mem_nil, or_false] at ht
      rcases ht with rfl | rfl <;> decide)

theorem perTarget_loop_step (m : StringMap) (n i : Nat) (ops : List Operator)
    (op next : Operator) (hi : ops[i]? = some op) (hn : ops[i + 1]? = some next) :
    SetOutputIDsPerTarget.loop m (n + 1) i ops
      = SetOutputIDsPerTarget.loop m n (i + 1) (ops.set i (resolveStage m op next.ID)) := by
  have hlt : i + 1 < ops.length := (List.getElem?_eq_some.1 hn).1
  have hne : ¬ (i + 1 = ops.length) := by omega
  have hmap : (op.GetOutputIDs.map fun id =>
        match m id with
        | some pid => pid
        | none => id) = op.GetOutputIDs.map fun t => (m t).getD t := by
    apply List.map_congr_left
    intro t _
    cases m t <;> rfl
  rw [SetOutputIDsPerTarget.loop]
  simp only [hi, hn, hne, if_false, hmap]
  unfold resolveStage
  by_cases h0 : op.GetOutputIDs.length = 0
  · simp only [h0, if_true]
  · simp only [h0, if_false]

theorem perTarget_loop_append (m : StringMap) (rest pre : List Operator) :
    SetOutputIDsPerTarget.loop m rest.length pre.length (pre ++ rest)
      = .ok (pre ++ resolveAll m rest) := by
  induction rest generalizing pre with
  | nil => simp [SetOutputIDsPerTarget.loop, resolveAll]
  | cons op rest ih =>
    cases rest with
    | nil => simp [SetOutputIDsPerTarget.loop, resolveAll]
    | cons next tl =>
      have hget : (pre ++ op :: next :: tl)[pre.length]? = some op := by
        rw [List.getElem?_append_right (by omega)]; simp
      have hget1 : (pre ++ op :: next :: tl)[pre.length + 1]? = some next := by
        rw [List.getElem?_append_right (by omega)]; simp
      have hset : ∀ x : Operator,
          (pre ++ op :: next :: tl).set pre.length x = (pre ++ [x]) ++ next :: tl := by
        intro x; simp [List.set_append]
      have hih := ih (pre ++ [resolveStage m op next.ID])
      rw [List.length_append, List.length_singleton] at hih
      rw [List.length_cons, perTarget_loop_step m _ _ _ op next hget hget1, hset, hih]
      simp [resolveAll]

/-- C15 (the all-or-nothing rewrite and per-target rewriting agree): for every stage
list and index map, `SetOutputIDs` and the variant without the `pluginFound` guard
both return normally and give every stage the same forwarding targets; the two
resulting lists are equal. -/
theorem SetOutputIDs_eq_perTarget (operators : List Operator) (buildsMulti : StringMap) :
    ∃ out out', SetOutputIDs operators buildsMulti = .ok out ∧
      SetOutputIDsPerTarget operators buildsMulti = .ok out' ∧
      (∀ i : Nat,
        (out[i]?).map Operator.GetOutputIDs = (out'[i]?).map Operator.GetOutputIDs) ∧
      out = out' := by
  have hvar : SetOutputIDsPerTarget operators buildsMulti
      = .ok (resolveAll buildsMulti operators) := by
    have := perTarget_loop_append buildsMulti operators []
    simpa [SetOutputIDsPerTarget] using this
  exact ⟨_, _, SetOutputIDs_eq operators buildsMulti, hvar, fun _ => rfl, rfl⟩

/-- C16 (locality of resolution): for two stage lists of equal length that agree on the
declared targets of the stage at position `i` and on the identifier of the stage at
position `i + 1` (if any), and the same index map, `SetOutputIDs` gives the stage at
position `i` the same forwarding targets in both runs. -/
theorem SetOutputIDs_local (ops₁ ops₂ : List Operator) (buildsMulti : StringMap) (i : Nat)
    (hlen : ops₁.length = ops₂.length)
    (htargets : (ops₁[i]?).map Operator.GetOutputIDs = (ops₂[i]?).map Operator.GetOutputIDs)
    (hnext : (ops₁[i + 1]?).map Operator.ID = (ops₂[i + 1]?).map Operator.ID) :
    ∃ out₁ out₂, SetOutputIDs ops₁ buildsMulti = .ok out₁ ∧
      SetOutputIDs ops₂ buildsMulti = .ok out₂ ∧
      (out₁[i]?).map Operator.GetOutputIDs = (out₂[i]?).map Operator.GetOutputIDs := by
  refine ⟨_, _, SetOutputIDs_eq ops₁ buildsMulti, SetOutputIDs_eq ops₂ buildsMulti, ?_⟩
  cases h1 : ops₁[i + 1]? with
  | none =>
    have h2 : ops₂[i + 1]? = none := by
      rw [List.getElem?_eq_none_iff] at h1 ⊢; omega
    rw [resolveAll_getElem?_last _ _ _ h1, resolveAll_getElem?_last _ _ _ h2]
    exact htargets
  | some n₁ =>
    have hlt : i + 1 < ops₁.length := (List.getElem?_eq_some.1 h1).1
    obtain ⟨n₂, h2⟩ : ∃ n₂, ops₂[i + 1]? = some n₂ :=
      ⟨_, List.getElem?_eq_getElem (by omega)⟩
    obtain ⟨o₁, ho₁⟩ : ∃ o₁, ops₁[i]? = some o₁ := ⟨_, List.getElem?_eq_getElem (by omega)⟩
    obtain ⟨o₂, ho₂⟩ : ∃ o₂, ops₂[i]? = some o₂ := ⟨_, List.getElem?_eq_getElem (by omega)⟩
    rw [h1, h2] at hnext
    rw [ho₁, ho₂] at htargets
    simp only [Option.map_some', Option.some.injEq] at hnext htargets
    rw [resolveAll_getElem? _ _ i o₁ n₁ ho₁ h1, resolveAll_getElem? _ _ i o₂ n₂ ho₂ h2]
    simp only [Option.map_some', Option.some.injEq]
    by_cases h0 : o₁.GetOutputIDs.length = 0
    · rw [resolveStage_outputs_of_none _ _ _ h0,
        resolveStage_outputs_of_none _ _ _ (htargets ▸ h0), hnext]
    · rw [resolveStage_outputs_of_some _ _ _ h0,
        resolveStage_outputs_of_some _ _ _ (htargets ▸ h0), htargets]

theorem SetOutputIDs_local_witness :
    ∃ out₁ out₂,
      SetOutputIDs [⟨"A", ["P"]⟩, ⟨"B", []⟩, ⟨"C", []⟩] (StringMap.empty.insert "P" "P1")
        = .ok out₁ ∧
      SetOutputIDs [⟨"A", ["P"]⟩, ⟨"B", ["y", "P"]⟩, ⟨"Z", ["z"]⟩]
        (StringMap.empty.insert "P" "P1") = .ok out₂ ∧
      (out₁[0]?).map Operator.GetOutputIDs = (out₂[0]?).map Operator.GetOutputIDs :=
  SetOutputIDs_local [⟨"A", ["P"]⟩, ⟨"B", []⟩, ⟨"C", []⟩]
    [⟨"A", ["P"]⟩, ⟨"B", ["y", "P"]⟩, ⟨"Z", ["z"]⟩] (StringMap.empty.insert "P" "P1") 0
    rfl rfl rfl

/-- C17: after `SetOutputIDs`, every stage except the last has a non-empty
forwarding-target list, for every stage list and index map. -/
theorem SetOutputIDs_targets_nonempty (operators : List Operator) (buildsMulti : StringMap) :
    ∃ out, SetOutputIDs operators buildsMulti = .ok out ∧
      ∀ (i : Nat) (op' : Operator),
        out[i]? = some op' → i + 1 < out.length → op'.GetOutputIDs ≠ [] := by
  refine ⟨_, SetOutputIDs_eq operators buildsMulti, ?_⟩
  intro i op' hi hlast
  rw [resolveAll_length] at hlast
  obtain ⟨op, hop⟩ : ∃ op, operators[i]? = some op :=
    ⟨_, List.getElem?_eq_getElem (by omega)⟩
  obtain ⟨next, hnext⟩ : ∃ next, operators[i + 1]? = some next :=
    ⟨_, List.getElem?_eq_getElem hlast⟩
  rw [resolveAll_getElem? buildsMulti operators i op next hop hnext] at hi
  rw [← Option.some.inj hi]
  intro hnil
  exact resolveStage_outputs_ne_nil buildsMulti op next.ID (by rw [hnil]; rfl)

/-- C18: `SetOutputIDs` changes nothing but forwarding targets: the list after the call
has the same length and the same stage identifiers in the same order as before, and
every stage that declared `n ≥ 1` forwarding targets still has exactly `n`. -/
theorem SetOutputIDs_frame (operators : List Operator) (buildsMulti : StringMap) :
    ∃ out, SetOutputIDs operators buildsMulti = .ok out ∧
      out.length = operators.length ∧
      out.map Operator.ID = operators.map Operator.ID ∧
      ∀ (i : Nat) (op op' : Operator), operators[i]? = some op → out[i]? = some op' →
        op.GetOutputIDs.length ≠ 0 → op'.GetOutputIDs.length = op.GetOutputIDs.length := by
  refine ⟨_, SetOutputIDs_eq operators buildsMulti, resolveAll_length _ _,
    resolveAll_map_ID _ _, ?_⟩
  intro i op op' hop hop' hsome
  cases hn : operators[i + 1]? with
  | none =>
    rw [resolveAll_getElem?_last _ _ _ hn, hop] at hop'
    rw [← Option.some.inj hop']
  | some next =>
    rw [resolveAll_getElem? _ _ i op next hop hn] at hop'
    rw [← Option.some.inj hop', resolveStage_outputs_of_some _ _ _ hsome, List.length_map]

/-- C19 (conditional idempotence): for an index none of whose values is itself a key and
a stage list none of whose identifiers is a key, applying `SetOutputIDs` twice yields
the same forwarding targets for every stage as applying it once. -/
theorem SetOutputIDs_twice_targets (operators : List Operator) (buildsMulti : StringMap)
    (hvals : ∀ k v, buildsMulti k = some v → buildsMulti v = none)
    (hids : ∀ op ∈ operators, buildsMulti op.ID = none) :
    ∃ once twice, SetOutputIDs operators buildsMulti = .ok once ∧
      SetOutputIDs once buildsMulti = .ok twice ∧
      twice.length = once.length ∧
      ∀ i : Nat,
        (twice[i]?).map Operator.GetOutputIDs = (once[i]?).map Operator.GetOutputIDs := by
  refine ⟨_, _, SetOutputIDs_eq operators buildsMulti, SetOutputIDs_eq _ buildsMulti, ?_, ?_⟩
  · rw [resolveAll_idem buildsMulti operators hvals hids]
  · intro i
    rw [resolveAll_idem buildsMulti operators hvals hids]

theorem SetOutputIDs_twice_targets_witness :
    ∃ once twice,
      SetOutputIDs [⟨"A", []⟩, ⟨"B", ["P", "Q"]⟩, ⟨"C", ["P"]⟩]
        ((StringMap.empty.insert "P" "P1").insert "Q" "Q1") = .ok once ∧
      SetOutputIDs once ((StringMap.empty.insert "P" "P1").insert "Q" "Q1") = .ok twice ∧
      twice.length = once.length ∧
      ∀ i : Nat,
        (twice[i]?).map Operator.GetOutputIDs = (once[i]?).map Operator.GetOutputIDs :=
  SetOutputIDs_twice_targets [⟨"A", []⟩, ⟨"B", ["P", "Q"]⟩, ⟨"C", ["P"]⟩]
    ((StringMap.empty.insert "P" "P1").insert "Q" "Q1")
    (by
      intro k v h
      unfold StringMap.insert StringMap.empty at h ⊢
      split at h
      · cases h; decide
      · split at h
        · cases h; decide
        · cases h)
    (by
      intro op hop
      simp only [List.mem_cons, List.mem_singleton, List.not_mem_nil, or_false] at hop
      rcases hop with rfl | rfl | rfl <;> decide)

/-! ### Assembly: calls made, errors and the index -/

theorem BuildOperators_of_loop_error (c : Config) (bc : BuildContext) (f : Failure)
    (h : (Config.BuildOperators.loop bc c StringMap.empty []).result = .error f) :
    c.BuildOperators bc =
      { trace := (Config.BuildOperators.loop bc c StringMap.empty []).trace,
        result := .error f } := by
  unfold Config.BuildOperators
  generalize Config.BuildOperators.loop bc c StringMap.empty [] = r at h
  obtain ⟨tr, res⟩ := r
  simp only at h
  subst h
  rfl

theorem BuildOperators_of_loop_ok (c : Config) (bc : BuildContext)
    (operators : List Operator) (buildsMulti : StringMap)
    (h : (Config.BuildOperators.loop bc c StringMap.empty []).result
      = .ok (operators, buildsMulti)) :
    c.BuildOperators bc =
      { trace := (Config.BuildOperators.loop bc c StringMap.empty []).trace ++
          [Event.SetOutputIDs operators buildsMulti],
        result := .ok (resolveAll buildsMulti operators) } := by
  unfold Config.BuildOperators
  generalize Config.BuildOperators.loop bc c StringMap.empty [] = r at h
  obtain ⟨tr, res⟩ := r
  simp only at h
  subst h
  simp [SetOutputIDs_eq]

/-- The build loop calls nothing but the builders of its list, each with the context
of the loop. -/
theorem buildLoop_trace (bc : BuildContext) (c : List operator.Config)
    (buildsMulti : StringMap) (operators : List Operator) :
    ∀ ev ∈ (Config.BuildOperators.loop bc c buildsMulti operators).trace,
      ∃ b ∈ c, ev = Event.Build b bc := by
  induction c generalizing buildsMulti operators with
  | nil => intro ev hev; simp [Config.BuildOperators.loop] at hev
  | cons b rest ih =>
    intro ev hev
    rw [Config.BuildOperators.loop] at hev
    cases hb : b.Build bc with
    | error err =>
      simp only [hb, List.mem_singleton] at hev
      exact ⟨b, List.mem_cons_self _ _, hev⟩
    | ok op =>
      simp only [hb] at hev
      cases hm : b.BuildsMultipleOps with
      | false =>
        simp only [hm, Bool.false_eq_true, if_false, Run.after, List.mem_cons] at hev
        rcases hev with hev | hev
        · exact ⟨b, List.mem_cons_self _ _, hev⟩
        · obtain ⟨b', hb', he⟩ := ih _ _ ev hev
          exact ⟨b', List.mem_cons_of_mem _ hb', he⟩
      | true =>
        simp only [hm, if_true] at hev
        cases hf : op[0]? with
        | none =>
          simp only [hf, List.mem_singleton] at hev
          exact ⟨b, List.mem_cons_self _ _, hev⟩
        | some first =>
          simp only [hf, Run.after, List.mem_cons] at hev
          rcases hev with hev | hev
          · exact ⟨b, List.mem_cons_self _ _, hev⟩
          · obtain ⟨b', hb', he⟩ := ih _ _ ev hev
            exact ⟨b', List.mem_cons_of_mem _ hb', he⟩

/-- When the build loop ends normally, every builder succeeded and every multi-stage
one returned at least one stage. -/
theorem buildLoop_ok_inv (bc : BuildContext) (c : List operator.Config)
    (buildsMulti : StringMap) (operators : List Operator) (r : List Operator × StringMap)
    (h : (Config.BuildOperators.loop bc c buildsMulti operators).result = .ok r) :
    AllBuild bc c ∧ MultiNonEmpty bc c := by
  induction c generalizing buildsMulti operators with
  | nil => exact ⟨by simp [AllBuild], by simp [MultiNonEmpty]⟩
  | cons b rest ih =>
    rw [Config.BuildOperators.loop] at h
    cases hb : b.Build bc with
    | error err => simp [hb] at h
    | ok op =>
      simp only [hb] at h
      cases hm : b.BuildsMultipleOps with
      | false =>
        simp only [hm, Bool.false_eq_true, if_false, Run.after] at h
        obtain ⟨h1, h2⟩ := ih _ _ h
        refine ⟨AllBuild_cons.2 ⟨⟨op, hb⟩, h1⟩, MultiNonEmpty_cons.2 ⟨?_, h2⟩⟩
        intro hmt; rw [hm] at hmt; cases hmt
      | true =>
        simp only [hm, if_true] at h
        cases hf : op[0]? with
        | none => simp [hf] at h
        | some first =>
          simp only [hf, Run.after] at h
          obtain ⟨h1, h2⟩ := ih _ _ h
          refine ⟨AllBuild_cons.2 ⟨⟨op, hb⟩, h1⟩, MultiNonEmpty_cons.2 ⟨?_, h2⟩⟩
          intro _ op' hop' hnil
          rw [hb] at hop'
          cases hop'
          subst hnil
          simp at hf

/-- The build loop returns the error `err` exactly when a builder it called returned
`err`. -/
theorem buildLoop_error_iff (bc : BuildContext) (c : List operator.Config)
    (buildsMulti : StringMap) (operators : List Operator) (err : Error) :
    (Config.BuildOperators.loop bc c buildsMulti operators).result = .error (.error err) ↔
      ∃ b, Event.Build b bc ∈ (Config.BuildOperators.loop bc c buildsMulti operators).trace ∧
        b.Build bc = .error err := by
  induction c generalizing buildsMulti operators with
  | nil => simp [Config.BuildOperators.loop]
  | cons b rest ih =>
    rw [Config.BuildOperators.loop]
    cases hb : b.Build bc with
    | error e =>
      simp only [hb, List.mem_singleton, Except.error.injEq, Failure.error.injEq]
      constructor
      · intro he; exact ⟨b, rfl, by rw [hb, he]⟩
      · rintro ⟨b', hb', hfail⟩
        simp only [Event.Build.injEq, and_true] at hb'
        subst hb'
        rw [hb] at hfail
        cases hfail; rfl
    | ok op =>
      simp only [hb]
      have hhead : ∀ b', Event.Build b' bc = Event.Build b bc → b'.Build bc ≠ .error err := by
        intro b' he hfail
        simp only [Event.Build.injEq, and_true] at he
        subst he
        rw [hb] at hfail
        cases hfail
      cases hm : b.BuildsMultipleOps with
      | false =>
        simp only [Bool.false_eq_true, if_false, Run.after, List.mem_cons]
        rw [ih]
        constructor
        · rintro ⟨b', h1, h2⟩; exact ⟨b', Or.inr h1, h2⟩
        · rintro ⟨b', h1 | h1, h2⟩
          · exact absurd h2 (hhead b' h1)
          · exact ⟨b', h1, h2⟩
      | true =>
        simp only [if_true]
        cases hf : op[0]? with
        | none =>
          simp only [List.mem_singleton]
          constructor
          · intro h; cases h
          · rintro ⟨b', h1, h2⟩; exact absurd h2 (hhead b' h1)
        | some first =>
          simp only [Run.after, List.mem_cons]
          rw [ih]
          constructor
          · rintro ⟨b', h1, h2⟩; exact ⟨b', Or.inr h1, h2⟩
          · rintro ⟨b', h1 | h1, h2⟩
            · exact absurd h2 (hhead b' h1)
            · exact ⟨b', h1, h2⟩

/-- Under the builder precondition the build loop does not panic. -/
theorem buildLoop_no_panic (bc : BuildContext) (c : List operator.Config)
    (buildsMulti : StringMap) (operators : List Operator) (hmulti : MultiNonEmpty bc c) :
    (Config.BuildOperators.loop bc c buildsMulti operators).result ≠ .error .panic := by
  induction c generalizing buildsMulti operators with
  | nil => simp [Config.BuildOperators.loop]
  | cons b rest ih =>
    obtain ⟨hb, hrest⟩ := MultiNonEmpty_cons.1 hmulti
    rw [Config.BuildOperators.loop]
    cases hbuild : b.Build bc with
    | error err => simp
    | ok op =>
      simp only
      cases hm : b.BuildsMultipleOps with
      | false =>
        simp only [Bool.false_eq_true, if_false, Run.after]
        exact ih _ _ hrest
      | true =>
        simp only [if_true]
        cases op with
        | nil => exact absurd rfl (hb hm [] hbuild)
        | cons first more =>
          simp only [List.getElem?_cons_zero, Run.after]
          exact ih _ _ hrest

/-- Every builder call of `BuildOperators` is the call of a builder of the list, with
the context `BuildOperators` was given. -/
theorem BuildOperators_trace_build (c : Config) (bc : BuildContext) (b : operator.Config)
    (ctx : BuildContext) (h : Event.Build b ctx ∈ (c.BuildOperators bc).trace) :
    b ∈ c ∧ ctx = bc := by
  have hloop : Event.Build b ctx ∈ (Config.BuildOperators.loop bc c StringMap.empty []).trace := by
    cases hres : (Config.BuildOperators.loop bc c StringMap.empty []).result with
    | error f =>
      rw [BuildOperators_of_loop_error c bc f hres] at h
      exact h
    | ok r =>
      rw [BuildOperators_of_loop_ok c bc r.1 r.2 hres] at h
      simpa using h
  obtain ⟨b', hb', he⟩ := buildLoop_trace bc c _ _ _ hloop
  simp only [Event.Build.injEq] at he
  exact ⟨he.1 ▸ hb', he.2⟩

/-- When `BuildOperators` calls `SetOutputIDs`, every builder has succeeded, every
multi-stage one with at least one stage, and the arguments of the call are the
flattened stages and the closed-form index. -/
theorem BuildOperators_trace_setOutputIDs (c : Config) (bc : BuildContext)
    (operators : List Operator) (buildsMulti : StringMap)
    (h : Event.SetOutputIDs operators buildsMulti ∈ (c.BuildOperators bc).trace) :
    AllBuild bc c ∧ MultiNonEmpty bc c ∧ operators = flattened bc c ∧
      buildsMulti = indexFrom bc c StringMap.empty := by
  cases hres : (Config.BuildOperators.loop bc c StringMap.empty []).result with
  | error f =>
    rw [BuildOperators_of_loop_error c bc f hres] at h
    obtain ⟨b', _, he⟩ := buildLoop_trace bc c _ _ _ h
    cases he
  | ok r =>
    obtain ⟨hall, hmulti⟩ := buildLoop_ok_inv bc c _ _ r hres
    rw [BuildOperators_eq c bc hall hmulti] at h
    simp only [List.mem_append, List.mem_map, List.mem_singleton, Event.SetOutputIDs.injEq] at h
    rcases h with ⟨b', _, he⟩ | ⟨h1, h2⟩
    · cases he
    · exact ⟨hall, hmulti, h1, h2⟩

/-- When `BuildOperators` returns stages, every builder has succeeded, every multi-stage
one with at least one stage. -/
theorem BuildOperators_ok_inv (c : Config) (bc : BuildContext) (ops : List Operator)
    (h : (c.BuildOperators bc).result = .ok ops) : AllBuild bc c ∧ MultiNonEmpty bc c := by
  cases hres : (Config.BuildOperators.loop bc c StringMap.empty []).result with
  | error f =>
    rw [BuildOperators_of_loop_error c bc f hres] at h
    cases h
  | ok r => exact buildLoop_ok_inv bc c _ _ r hres

/-- `BuildOperators` returns the error `err` exactly when a builder it called returned
`err`. -/
theorem BuildOperators_error_iff (c : Config) (bc : BuildContext) (err : Error) :
    (c.BuildOperators bc).result = .error (.error err) ↔
      ∃ b, Event.Build b bc ∈ (c.BuildOperators bc).trace ∧ b.Build bc = .error err := by
  cases hres : (Config.BuildOperators.loop bc c StringMap.empty []).result with
  | error f =>
    rw [BuildOperators_of_loop_error c bc f hres]
    simp only
    rw [← buildLoop_error_iff, hres]
    simp
  | ok r =>
    have hno : ¬ ∃ b, Event.Build b bc ∈
        (Config.BuildOperators.loop bc c StringMap.empty []).trace ∧
          b.Build bc = .error err := by
      rw [← buildLoop_error_iff, hres]
      intro h; cases h
    rw [BuildOperators_of_loop_ok c bc r.1 r.2 hres]
    constructor
    · intro h; cases h
    · rintro ⟨b, hb, hfail⟩
      exact absurd ⟨b, by simpa using hb, hfail⟩ hno

/-- Under the builder precondition `BuildOperators` does not panic. -/
theorem BuildOperators_no_panic (c : Config) (bc : BuildContext)
    (hmulti : MultiNonEmpty bc c) : (c.BuildOperators bc).result ≠ .error .panic := by
  cases hres : (Config.BuildOperators.loop bc c StringMap.empty []).result with
  | error f =>
    have hloop := buildLoop_no_panic bc c StringMap.empty [] hmulti
    rw [hres] at hloop
    rw [BuildOperators_of_loop_error c bc f hres]
    intro h
    apply hloop
    cases h
    rfl
  | ok r =>
    rw [BuildOperators_of_loop_ok c bc r.1 r.2 hres]
    simp

/-- C12 counterexample: `A`, a plugin `P` whose builder succeeds with zero stages, and
`F`, whose builder returns the error `boom`.  A specification's builder returns an error,
yet `BuildOperators` returns no error: evaluating `op[0]` for `P` panics before `F` is
built. -/
theorem SetOutputIDs_total_counterexample :
    (∃ b ∈ [Example.single "A" [], Example.multi "P" [], Example.failing "F" "boom"],
      ∃ err, b.Build Example.bc = .error err) ∧
    (Config.BuildOperators
        [Example.single "A" [], Example.multi "P" [], Example.failing "F" "boom"]
        Example.bc).result = .error .panic ∧
    (∀ err,
      (Config.BuildOperators
          [Example.single "A" [], Example.multi "P" [], Example.failing "F" "boom"]
          Example.bc).result ≠ .error (.error err)) := by
  refine ⟨⟨Example.failing "F" "boom", by simp, "boom", rfl⟩, rfl, ?_⟩
  intro err h
  have hp : (Config.BuildOperators
      [Example.single "A" [], Example.multi "P" [], Example.failing "F" "boom"]
      Example.bc).result = .error .panic := rfl
  rw [hp] at h
  cases h

/-- C12, amended (routing resolution is total and never fails): for every stage list
(the empty one included) and every index map, `SetOutputIDs` returns normally, without an
error and without an index out of range.  Consequently, for every specification list in
which every multi-stage specification whose builder succeeds returns at least one stage,
`BuildOperators` returns an error if and only if some specification's builder returns
an error. -/
theorem SetOutputIDs_total (operators : List Operator) (buildsMulti : StringMap)
    (c : Config) (bc : BuildContext) :
    (∃ out, SetOutputIDs operators buildsMulti = .ok out) ∧
    (MultiNonEmpty bc c →
      ((∃ err, (c.BuildOperators bc).result = .error (.error err)) ↔
        ∃ b ∈ c, ∃ err, b.Build bc = .error err)) := by
  refine ⟨⟨_, SetOutputIDs_eq operators buildsMulti⟩, ?_⟩
  intro hmulti
  constructor
  · rintro ⟨err, herr⟩
    obtain ⟨b, hb, hfail⟩ := (BuildOperators_error_iff c bc err).1 herr
    exact ⟨b, (BuildOperators_trace_build c bc b bc hb).1, err, hfail⟩
  · rintro ⟨b, hb, err, hfail⟩
    cases hres : (c.BuildOperators bc).result with
    | ok ops =>
      obtain ⟨op, hop⟩ := (BuildOperators_ok_inv c bc ops hres).1 b hb
      rw [hop] at hfail
      cases hfail
    | error f =>
      cases f with
      | panic => exact absurd hres (BuildOperators_no_panic c bc hmulti)
      | error e => exact ⟨e, rfl⟩

theorem SetOutputIDs_total_witness :
    (∃ out, SetOutputIDs [] (StringMap.empty.insert "P" "P1") = .ok out) ∧
    (∃ out, SetOutputIDs [⟨"A", ["P"]⟩, ⟨"B", []⟩, ⟨"C", []⟩]
      (StringMap.empty.insert "P" "P1") = .ok out) ∧
    ((∃ err,
        (Config.BuildOperators
          [Example.single "A" [], Example.multi "P" [⟨"P1", []⟩],
            Example.failing "F" "boom"] Example.bc).result = .error (.error err)) ↔
      ∃ b ∈ [Example.single "A" [], Example.multi "P" [⟨"P1", []⟩],
          Example.failing "F" "boom"],
        ∃ err, b.Build Example.bc = .error err) ∧
    (Config.BuildOperators
        [Example.single "A" [], Example.multi "P" [⟨"P1", []⟩],
          Example.failing "F" "boom"] Example.bc).result = .error (.error "boom") :=
  ⟨(SetOutputIDs_total [] (StringMap.empty.insert "P" "P1") [] Example.bc).1,
    (SetOutputIDs_total [⟨"A", ["P"]⟩, ⟨"B", []⟩, ⟨"C", []⟩]
      (StringMap.empty.insert "P" "P1") [] Example.bc).1,
    (SetOutputIDs_total [] StringMap.empty
      [Example.single "A" [], Example.multi "P" [⟨"P1", []⟩], Example.failing "F" "boom"]
      Example.bc).2
      (by simp [MultiNonEmpty, Example.single, Example.multi, Example.failing]),
    rfl⟩

theorem exists_last_of_exists (c : List operator.Config) (p : operator.Config → Prop)
    (h : ∃ Q ∈ c, p Q) :
    ∃ pre P post, c = pre ++ P :: post ∧ p P ∧ ∀ Q ∈ post, ¬ p Q := by
  induction c with
  | nil => obtain ⟨Q, hQ, _⟩ := h; cases hQ
  | cons x rest ih =>
    by_cases hr : ∃ Q ∈ rest, p Q
    · obtain ⟨pre, P, post, hc, hP, hpost⟩ := ih hr
      exact ⟨x :: pre, P, post, by rw [hc]; rfl, hP, hpost⟩
    · obtain ⟨Q, hQ, hpQ⟩ := h
      rcases List.mem_cons.1 hQ with rfl | hQ'
      · exact ⟨[], Q, rest, rfl, hpQ, fun R hR hpR => hr ⟨R, hR, hpR⟩⟩
      · exact absurd ⟨Q, hQ', hpQ⟩ hr

/-- The index entry of a multi-stage specification that no later multi-stage
specification overwrites: the identifier of the first stage it built. -/
theorem indexFrom_at_last (bc : BuildContext) (pre post : List operator.Config)
    (P : operator.Config) (first : Operator) (more : List Operator) (m : StringMap)
    (hP : P.BuildsMultipleOps = true) (hbuild : P.Build bc = .ok (first :: more))
    (hlater : ∀ Q ∈ post, Q.BuildsMultipleOps = true →
      bc.PrependNamespace Q.ID ≠ bc.PrependNamespace P.ID) :
    indexFrom bc (pre ++ P :: post) m (bc.PrependNamespace P.ID) = some first.ID := by
  rw [indexFrom_append]
  simp only [indexFrom, hP, builtBy_of_ok hbuild, List.getElem?_cons_zero]
  rw [indexFrom_of_not_key bc post _ _ hlater]
  simp [StringMap.insert]

/-- C13 counterexample: two plugins carry the identifier `B`, and each returns at least
one stage.  The index passed to `SetOutputIDs` maps `$.B` to `X1`, the first stage of the
second plugin, not to `B1`, the first stage the first plugin produced. -/
theorem BuildOperators_index_counterexample :
    MultiNonEmpty Example.bc
      [Example.multi "B" [⟨"B1", []⟩, ⟨"B2", []⟩], Example.multi "B" [⟨"X1", []⟩]] ∧
    (Example.multi "B" [⟨"B1", []⟩, ⟨"B2", []⟩]).Build Example.bc
      = .ok [⟨"B1", []⟩, ⟨"B2", []⟩] ∧
    ∃ operators buildsMulti,
      (Config.BuildOperators
          [Example.multi "B" [⟨"B1", []⟩, ⟨"B2", []⟩], Example.multi "B" [⟨"X1", []⟩]]
          Example.bc).trace.getLast?
        = some (Event.SetOutputIDs operators buildsMulti) ∧
      buildsMulti (Example.bc.PrependNamespace (Example.multi "B" [⟨"B1", []⟩, ⟨"B2", []⟩]).ID)
        = some "X1" :=
  ⟨by simp [MultiNonEmpty, Example.multi], rfl, _, _, rfl, rfl⟩

/-- C13, amended (the multi-instance index): when every multi-stage specification whose
builder succeeds returns at least one stage, `BuildOperators` does not panic: its access
to the first produced stage is always defined.  When all builders succeed it calls
`SetOutputIDs`, and the index of that call has exactly the namespaced identifiers of the
multi-stage specifications as keys; each is mapped to the identifier of the first stage
produced by the last multi-stage specification with that namespaced identifier, which is
the specification itself when no later one shares its namespaced identifier. -/
theorem BuildOperators_index (c : Config) (bc : BuildContext) (hmulti : MultiNonEmpty bc c) :
    (c.BuildOperators bc).result ≠ .error .panic ∧
    (AllBuild bc c → ∃ operators buildsMulti,
      Event.SetOutputIDs operators buildsMulti ∈ (c.BuildOperators bc).trace) ∧
    (∀ operators buildsMulti,
      Event.SetOutputIDs operators buildsMulti ∈ (c.BuildOperators bc).trace →
      ∀ k v, buildsMulti k = some v ↔
        ∃ pre P post first more, c = pre ++ P :: post ∧
          P.BuildsMultipleOps = true ∧ P.Build bc = .ok (first :: more) ∧
          bc.PrependNamespace P.ID = k ∧ first.ID = v ∧
          ∀ Q ∈ post, Q.BuildsMultipleOps = true → bc.PrependNamespace Q.ID ≠ k) := by
  refine ⟨BuildOperators_no_panic c bc hmulti, ?_, ?_⟩
  · intro hall
    rw [BuildOperators_eq c bc hall hmulti]
    exact ⟨flattened bc c, indexFrom bc c StringMap.empty, by simp⟩
  · intro operators buildsMulti hev k v
    obtain ⟨hall, _, _, hidx⟩ := BuildOperators_trace_setOutputIDs c bc _ _ hev
    subst hidx
    constructor
    · intro hk
      have hex : ∃ Q ∈ c, Q.BuildsMultipleOps = true ∧ bc.PrependNamespace Q.ID = k := by
        by_contra hno
        have hnone : indexFrom bc c StringMap.empty k = StringMap.empty k :=
          indexFrom_of_not_key bc c _ k
            (fun Q hQ hm he => hno ⟨Q, hQ, hm, he⟩)
        rw [hk] at hnone
        cases hnone
      obtain ⟨pre, P, post, hc, ⟨hPm, hPk⟩, hpost⟩ :=
        exists_last_of_exists c
          (fun Q => Q.BuildsMultipleOps = true ∧ bc.PrependNamespace Q.ID = k) hex
      have hPc : P ∈ c := by rw [hc]; simp
      obtain ⟨op, hop⟩ := hall P hPc
      cases op with
      | nil => exact absurd rfl (hmulti P hPc hPm [] hop)
      | cons first more =>
        have hlater : ∀ Q ∈ post, Q.BuildsMultipleOps = true →
            bc.PrependNamespace Q.ID ≠ bc.PrependNamespace P.ID := by
          intro Q hQ hm he
          exact hpost Q hQ ⟨hm, he.trans hPk⟩
        have hval := indexFrom_at_last bc pre post P first more StringMap.empty hPm hop hlater
        rw [← hc, hPk, hk] at hval
        refine ⟨pre, P, post, first, more, hc, hPm, hop, hPk, (Option.some.inj hval).symm, ?_⟩
        intro Q hQ hm he
        exact hpost Q hQ ⟨hm, he⟩
    · rintro ⟨pre, P, post, first, more, hc, hPm, hop, hPk, hv, hpost⟩
      subst hc hPk hv
      exact indexFrom_at_last bc pre post P first more StringMap.empty hPm hop hpost

theorem BuildOperators_index_witness :
    (Config.BuildOperators
        [Example.single "A" ["$.B"], Example.multi "B" [⟨"B1", []⟩, ⟨"B2", []⟩]]
        Example.bc).result ≠ .error .panic ∧
    (AllBuild Example.bc
        [Example.single "A" ["$.B"], Example.multi "B" [⟨"B1", []⟩, ⟨"B2", []⟩]] →
      ∃ operators buildsMulti,
        Event.SetOutputIDs operators buildsMulti ∈
          (Config.BuildOperators
            [Example.single "A" ["$.B"], Example.multi "B" [⟨"B1", []⟩, ⟨"B2", []⟩]]
            Example.bc).trace) ∧
    (∀ operators buildsMulti,
      Event.SetOutputIDs operators buildsMulti ∈
        (Config.BuildOperators
          [Example.single "A" ["$.B"], Example.multi "B" [⟨"B1", []⟩, ⟨"B2", []⟩]]
          Example.bc).trace →
      ∀ k v, buildsMulti k = some v ↔
        ∃ pre P post first more,
          [Example.single "A" ["$.B"], Example.multi "B" [⟨"B1", []⟩, ⟨"B2", []⟩]]
            = pre ++ P :: post ∧
          P.BuildsMultipleOps = true ∧ P.Build Example.bc = .ok (first :: more) ∧
          Example.bc.PrependNamespace P.ID = k ∧ first.ID = v ∧
          ∀ Q ∈ post, Q.BuildsMultipleOps = true → Example.bc.PrependNamespace Q.ID ≠ k) :=
  BuildOperators_index
    [Example.single "A" ["$.B"], Example.multi "B" [⟨"B1", []⟩, ⟨"B2", []⟩]] Example.bc
    (by simp [MultiNonEmpty, Example.single, Example.multi])

/-! ### Assembly entry point: contexts and the sequence handed over -/

theorem BuildPipeline_of_error {P : Type}
    (NewDirectedPipeline : List Operator → Except Failure P)
    (c : Config) (bc bc' : BuildContext) (defaultOperator : Option Operator) (f : Failure)
    (hbc : bc' = defaultOperator.elim bc (fun d => { bc with DefaultOutputIDs := [d.ID] }))
    (h : (c.BuildOperators bc').result = .error f) :
    Config.BuildPipeline NewDirectedPipeline c bc defaultOperator =
      { trace := (c.BuildOperators bc').trace, result := .error f } := by
  subst hbc
  cases defaultOperator <;>
  · simp only [Option.elim] at h
    unfold Config.BuildPipeline
    simp only [Option.elim]
    generalize c.BuildOperators _ = r at h
    obtain ⟨tr, res⟩ := r
    simp only at h
    subst h
    rfl

theorem BuildPipeline_of_ok {P : Type}
    (NewDirectedPipeline : List Operator → Except Failure P)
    (c : Config) (bc bc' : BuildContext) (defaultOperator : Option Operator)
    (ops seq : List Operator)
    (hbc : bc' = defaultOperator.elim bc (fun d => { bc with DefaultOutputIDs := [d.ID] }))
    (hseq : seq = defaultOperator.elim ops (fun d => ops ++ [d]))
    (h : (c.BuildOperators bc').result = .ok ops) :
    Config.BuildPipeline NewDirectedPipeline c bc defaultOperator =
      { trace := (c.BuildOperators bc').trace ++ [Event.NewDirectedPipeline seq],
        result := NewDirectedPipeline seq } := by
  subst hbc hseq
  cases defaultOperator <;>
  · simp only [Option.elim] at h
    unfold Config.BuildPipeline
    simp only [Option.elim]
    generalize c.BuildOperators _ = r at h
    obtain ⟨tr, res⟩ := r
    simp only at h
    subst h
    rfl

/-- Every builder call of `BuildPipeline` is the call of a builder of the list, with the
context `BuildPipeline` hands to `BuildOperators`. -/
theorem BuildPipeline_trace_build {P : Type}
    (NewDirectedPipeline : List Operator → Except Failure P)
    (c : Config) (bc bc' : BuildContext) (defaultOperator : Option Operator)
    (hbc : bc' = defaultOperator.elim bc (fun d => { bc with DefaultOutputIDs := [d.ID] }))
    (b : operator.Config) (ctx : BuildContext)
    (h : Event.Build b ctx ∈
      (Config.BuildPipeline NewDirectedPipeline c bc defaultOperator).trace) :
    b ∈ c ∧ ctx = bc' := by
  apply BuildOperators_trace_build c bc' b ctx
  cases hres : (c.BuildOperators bc').result with
  | error f =>
    rw [BuildPipeline_of_error NewDirectedPipeline c bc bc' defaultOperator f hbc hres] at h
    exact h
  | ok ops =>
    rw [BuildPipeline_of_ok NewDirectedPipeline c bc bc' defaultOperator ops _ hbc rfl hres] at h
    simpa using h

/-- What `BuildPipeline` calls and returns when `BuildOperators`, under the context
`bc'` handed to it, returns the stages `ops`: every builder of the list is called with
`bc'`, and `NewDirectedPipeline` is called once, on `seq`. -/
theorem BuildPipeline_calls {P : Type}
    (NewDirectedPipeline : List Operator → Except Failure P)
    (c : Config) (bc bc' : BuildContext) (defaultOperator : Option Operator)
    (ops seq : List Operator)
    (hbc : bc' = defaultOperator.elim bc (fun d => { bc with DefaultOutputIDs := [d.ID] }))
    (hseq : seq = defaultOperator.elim ops (fun d => ops ++ [d]))
    (h : (c.BuildOperators bc').result = .ok ops) :
    (∀ b ∈ c, Event.Build b bc' ∈
      (Config.BuildPipeline NewDirectedPipeline c bc defaultOperator).trace) ∧
    (∀ s, Event.NewDirectedPipeline s ∈
      (Config.BuildPipeline NewDirectedPipeline c bc defaultOperator).trace ↔ s = seq) ∧
    (Config.BuildPipeline NewDirectedPipeline c bc defaultOperator).result
      = NewDirectedPipeline seq := by
  obtain ⟨hall, hmulti⟩ := BuildOperators_ok_inv c bc' ops h
  rw [BuildPipeline_of_ok NewDirectedPipeline c bc bc' defaultOperator ops seq hbc hseq h]
  rw [BuildOperators_eq c bc' hall hmulti]
  refine ⟨?_, ?_, rfl⟩
  · intro b hb
    simp only [List.mem_append, List.mem_map, List.mem_singleton]
    exact Or.inl (Or.inl ⟨b, hb, rfl⟩)
  · intro s
    simp only [List.mem_append, List.mem_map, List.mem_singleton, Event.NewDirectedPipeline.injEq]
    constructor
    · rintro ((⟨b, _, he⟩ | he) | he)
      · cases he
      · cases he
      · exact he
    · intro he; exact Or.inr he

/-- C11 (assembly by `BuildPipeline`).  With a terminal stage `d`: every builder call is
made with the caller's context in which only the default forwarding targets are
replaced, by `[d.ID]`; and when `BuildOperators` returns stages under that context,
every builder of the list has been called with it and the one sequence passed to
`NewDirectedPipeline` is these stages followed by `d`.  Without a terminal stage: every
builder call is made with the caller's context, and the one sequence passed on is
exactly what `BuildOperators` returns. -/
theorem BuildPipeline_assembly {P : Type}
    (NewDirectedPipeline : List Operator → Except Failure P)
    (c : Config) (bc : BuildContext) (d : Operator) :
    (∀ b ctx, Event.Build b ctx ∈
        (Config.BuildPipeline NewDirectedPipeline c bc (some d)).trace →
      b ∈ c ∧ ctx.DefaultOutputIDs = [d.ID] ∧ ctx.PrependNamespace = bc.PrependNamespace ∧
        ctx = { bc with DefaultOutputIDs := [d.ID] }) ∧
    (∀ ops, (c.BuildOperators { bc with DefaultOutputIDs := [d.ID] }).result = .ok ops →
      (∀ b ∈ c, Event.Build b { bc with DefaultOutputIDs := [d.ID] } ∈
        (Config.BuildPipeline NewDirectedPipeline c bc (some d)).trace) ∧
      (∀ s, Event.NewDirectedPipeline s ∈
        (Config.BuildPipeline NewDirectedPipeline c bc (some d)).trace ↔ s = ops ++ [d]) ∧
      (Config.BuildPipeline NewDirectedPipeline c bc (some d)).result
        = NewDirectedPipeline (ops ++ [d]) ∧
      (ops ++ [d]).getLast? = some d) ∧
    (∀ b ctx, Event.Build b ctx ∈
        (Config.BuildPipeline NewDirectedPipeline c bc none).trace →
      b ∈ c ∧ ctx = bc) ∧
    (∀ ops, (c.BuildOperators bc).result = .ok ops →
      (∀ b ∈ c, Event.Build b bc ∈
        (Config.BuildPipeline NewDirectedPipeline c bc none).trace) ∧
      (∀ s, Event.NewDirectedPipeline s ∈
        (Config.BuildPipeline NewDirectedPipeline c bc none).trace ↔ s = ops) ∧
      (Config.BuildPipeline NewDirectedPipeline c bc none).result
        = NewDirectedPipeline ops) := by
  refine ⟨?_, ?_, ?_, ?_⟩
  · intro b ctx h
    obtain ⟨hb, hctx⟩ := BuildPipeline_trace_build NewDirectedPipeline c bc
      { bc with DefaultOutputIDs := [d.ID] } (some d) rfl b ctx h
    subst hctx
    exact ⟨hb, rfl, rfl, rfl⟩
  · intro ops h
    obtain ⟨h1, h2, h3⟩ := BuildPipeline_calls NewDirectedPipeline c bc
      { bc with DefaultOutputIDs := [d.ID] } (some d) ops (ops ++ [d]) rfl rfl h
    exact ⟨h1, h2, h3, by simp⟩
  · intro b ctx h
    exact BuildPipeline_trace_build NewDirectedPipeline c bc bc none rfl b ctx h
  · intro ops h
    exact BuildPipeline_calls NewDirectedPipeline c bc bc none ops ops rfl rfl h

theorem BuildPipeline_assembly_witness :
    (∀ b ∈ [Example.single "A" [], Example.single "B" []],
      Event.Build b { Example.bc with DefaultOutputIDs := [Operator.ID ⟨"T", []⟩] } ∈
        (Config.BuildPipeline Except.ok [Example.single "A" [], Example.single "B" []]
          Example.bc (some ⟨"T", []⟩)).trace) ∧
    (∀ s, Event.NewDirectedPipeline s ∈
        (Config.BuildPipeline Except.ok [Example.single "A" [], Example.single "B" []]
          Example.bc (some ⟨"T", []⟩)).trace ↔
      s = [⟨"A", ["B"]⟩, ⟨"B", []⟩] ++ [⟨"T", []⟩]) ∧
    (Config.BuildPipeline Except.ok [Example.single "A" [], Example.single "B" []]
        Example.bc (some ⟨"T", []⟩)).result
      = Except.ok ([⟨"A", ["B"]⟩, ⟨"B", []⟩] ++ [⟨"T", []⟩]) ∧
    (∀ s, Event.NewDirectedPipeline s ∈
        (Config.BuildPipeline Except.ok [Example.single "A" [], Example.single "B" []]
          Example.bc none).trace ↔
      s = [⟨"A", ["B"]⟩, ⟨"B", []⟩]) :=
  ⟨((BuildPipeline_assembly Except.ok [Example.single "A" [], Example.single "B" []]
      Example.bc ⟨"T", []⟩).2.1 [⟨"A", ["B"]⟩, ⟨"B", []⟩] rfl).1,
    ((BuildPipeline_assembly Except.ok [Example.single "A" [], Example.single "B" []]
      Example.bc ⟨"T", []⟩).2.1 [⟨"A", ["B"]⟩, ⟨"B", []⟩] rfl).2.1,
    ((BuildPipeline_assembly Except.ok [Example.single "A" [], Example.single "B" []]
      Example.bc ⟨"T", []⟩).2.1 [⟨"A", ["B"]⟩, ⟨"B", []⟩] rfl).2.2.1,
    ((BuildPipeline_assembly Except.ok [Example.single "A" [], Example.single "B" []]
      Example.bc ⟨"T", []⟩).2.2.2 [⟨"A", ["B"]⟩, ⟨"B", []⟩] rfl).2.1⟩

end pipeline

